import Mathlib

/-!
Verification development for the pyATS `contrib` topology creator
(`src/pyats/contrib/creators/topology.py` and
`src/pyats/contrib/creators/libs/testbed_manager.py`).

The Python code is shallowly embedded: Python dicts become association
lists (`List (String × α)`) with first-occurrence lookup and in-place
key assignment (`setKey`), Python sets become duplicate-free lists built
by insertion order, exceptions become `Except`, and interactions with
real network devices (unicon `connect`, `pcall`ed device APIs) become
explicit oracle / environment parameters.
-/

namespace PyDict

/-- First-occurrence lookup in an association list, i.e. `d[k]` /
`d.get(k)` on a Python dict (whose keys are unique, so first occurrence
is the occurrence). -/
def lookupA {α : Type} : List (String × α) → String → Option α
  | [], _ => none
  | (k', v') :: rest, k => if k' = k then some v' else lookupA rest k

/-- Keys of an association list (`d.keys()`). -/
def keysOf {α : Type} (l : List (String × α)) : List String :=
  l.map Prod.fst

/-- Python dict assignment `d[k] = v`: replace the value at the first
occurrence of `k`, or append the binding if `k` is absent. -/
def setKey {α : Type} : List (String × α) → String → α → List (String × α)
  | [], k, v => [(k, v)]
  | (k', v') :: rest, k, v =>
      if k' = k then (k, v) :: rest else (k', v') :: setKey rest k v

/-- Python `d.update(m)`: assign every binding of `m` into `d` in order. -/
def updateAll {α : Type} (l m : List (String × α)) : List (String × α) :=
  m.foldl (fun acc p => setKey acc p.1 p.2) l

/-- The keys of an association list are pairwise distinct, as for an
actual Python dict. -/
def NodupKeys {α : Type} (l : List (String × α)) : Prop :=
  (keysOf l).Nodup

@[simp] theorem lookupA_nil {α : Type} (k : String) :
    lookupA ([] : List (String × α)) k = none := rfl

@[simp] theorem lookupA_cons {α : Type} (k1 : String) (v1 : α)
    (rest : List (String × α)) (k : String) :
    lookupA ((k1, v1) :: rest) k = if k1 = k then some v1 else lookupA rest k := rfl

@[simp] theorem setKey_nil {α : Type} (k : String) (v : α) :
    setKey ([] : List (String × α)) k v = [(k, v)] := rfl

theorem setKey_cons {α : Type} (k1 : String) (v1 : α)
    (rest : List (String × α)) (k : String) (v : α) :
    setKey ((k1, v1) :: rest) k v =
      if k1 = k then (k, v) :: rest else (k1, v1) :: setKey rest k v := rfl

@[simp] theorem lookupA_setKey_self {α : Type} (l : List (String × α)) (k : String) (v : α) :
    lookupA (setKey l k v) k = some v := by
  induction l with
  | nil => simp
  | cons p rest ih =>
      obtain ⟨k1, v1⟩ := p
      by_cases h : k1 = k
      · simp [setKey_cons, h]
      · simp [setKey_cons, h, ih]

theorem lookupA_setKey_ne {α : Type} (l : List (String × α)) (k k' : String) (v : α)
    (h : k' ≠ k) : lookupA (setKey l k v) k' = lookupA l k' := by
  induction l with
  | nil => simp [Ne.symm h]
  | cons p rest ih =>
      obtain ⟨k1, v1⟩ := p
      by_cases hp : k1 = k
      · subst hp
        simp [setKey_cons, Ne.symm h]
      · simp [setKey_cons, hp, ih]

theorem setKey_eq_of_lookup {α : Type} (l : List (String × α)) (k : String) (v : α)
    (h : lookupA l k = some v) : setKey l k v = l := by
  induction l with
  | nil => simp at h
  | cons p rest ih =>
      obtain ⟨k1, v1⟩ := p
      by_cases hp : k1 = k
      · subst hp
        simp at h
        rw [setKey_cons, if_pos rfl, h]
      · simp only [lookupA_cons, if_neg hp] at h
        simp [setKey_cons, hp, ih h]

theorem mem_keys_setKey {α : Type} (l : List (String × α)) (k k' : String) (v : α) :
    k' ∈ keysOf (setKey l k v) ↔ k' = k ∨ k' ∈ keysOf l := by
  induction l with
  | nil => simp [keysOf]
  | cons p rest ih =>
      obtain ⟨k1, v1⟩ := p
      by_cases hp : k1 = k
      · subst hp
        rw [setKey_cons, if_pos rfl]
        simp only [keysOf, List.map_cons, List.mem_cons]
        tauto
      · rw [setKey_cons, if_neg hp]
        simp only [keysOf, List.map_cons, List.mem_cons]
        have := ih
        unfold keysOf at this
        rw [this]
        tauto

theorem nodupKeys_setKey {α : Type} (l : List (String × α)) (k : String) (v : α)
    (h : NodupKeys l) : NodupKeys (setKey l k v) := by
  induction l with
  | nil => simp [NodupKeys, keysOf]
  | cons p rest ih =>
      obtain ⟨k1, v1⟩ := p
      unfold NodupKeys keysOf at h
      simp only [List.map_cons, List.nodup_cons] at h
      by_cases hp : k1 = k
      · subst hp
        unfold NodupKeys keysOf
        rw [setKey_cons, if_pos rfl]
        simp only [List.map_cons, List.nodup_cons]
        exact h
      · unfold NodupKeys keysOf
        rw [setKey_cons, if_neg hp]
        simp only [List.map_cons, List.nodup_cons]
        have hrec := ih h.2
        refine ⟨fun hc => ?_, hrec⟩
        have : k1 ∈ keysOf (setKey rest k v) := hc
        rw [mem_keys_setKey] at this
        rcases this with hc1 | hc1
        · exact hp hc1
        · exact h.1 hc1

theorem lookupA_of_mem_nodup {α : Type} (l : List (String × α)) (k : String) (v : α)
    (hl : NodupKeys l) (h : (k, v) ∈ l) : lookupA l k = some v := by
  induction l with
  | nil => simp at h
  | cons p rest ih =>
      obtain ⟨k1, v1⟩ := p
      unfold NodupKeys keysOf at hl
      simp only [List.map_cons, List.nodup_cons] at hl
      rcases List.mem_cons.mp h with h1 | h1
      · rw [Prod.mk.injEq] at h1
        obtain ⟨rfl, rfl⟩ := h1
        simp
      · have hne : k1 ≠ k := by
          intro he
          subst he
          exact hl.1 (List.mem_map_of_mem Prod.fst h1)
        simp only [lookupA_cons, if_neg hne]
        exact ih hl.2 h1

end PyDict

open PyDict

/-! ## Python string / value helpers -/

/-- Python's `needle in hay` on strings: substring containment. -/
def pyInStr (needle hay : String) : Bool :=
  decide (needle.toList <:+: hay.toList)

/-- Left curly-bracket character (written via its code point). -/
def lbraceChar : Char := Char.ofNat 123

/-- Right curly-bracket character. -/
def rbraceChar : Char := Char.ofNat 125

/-- Single-quote character. -/
def squoteChar : Char := Char.ofNat 39

/-- A Python value reaching `Topology.validIPAddress`: the call sites
pass either a string (an address from parser output), `None` (a missing
lldp management address), or — in `create_new_device` — an entire `set`
of interface-address strings. -/
inductive PyVal where
  | pstr (s : String)
  | pnone
  | pset (l : List String)
deriving DecidableEq, Repr

/-- `str(value)` as applied by `ipaddress.IPv4Address` to a non-int,
non-bytes argument before parsing: a string is itself, `None` prints as
`None`, and a set prints as `{'a', 'b'}` (in particular it starts with
a curly bracket). -/
def pyValChars : PyVal → List Char
  | .pstr s => s.toList
  | .pnone => "None".toList
  | .pset l =>
      lbraceChar ::
        ((", ".toList).intercalate
          (l.map (fun s => squoteChar :: s.toList ++ [squoteChar])) ++ [rbraceChar])

/-- Split a character list at every `'.'`, the relevant behaviour of the
dotted-quad tokenisation done by `ipaddress.IPv4Address`. -/
def splitOnDot (l : List Char) : List (List Char) :=
  match l with
  | [] => [[]]
  | c :: rest =>
      match splitOnDot rest with
      | [] => [[]]
      | p :: ps => if c = '.' then [] :: p :: ps else (c :: p) :: ps

/-- Parse one decimal octet the way `ipaddress.IPv4Address` does: one to
three digits, value at most 255, and no leading zero. -/
def parseOctet (cs : List Char) : Option Nat :=
  if cs = [] then none
  else if ¬ cs.all Char.isDigit then none
  else if cs.length > 3 then none
  else if cs.length > 1 ∧ cs.head? = some '0' then none
  else
    let v := cs.foldl (fun a c => a * 10 + (c.toNat - 48)) 0
    if v ≤ 255 then some v else none

/-- Parse a dotted-quad IPv4 address into its numeric value; `none`
models `ipaddress.AddressValueError`. -/
def parseIPv4 (cs : List Char) : Option Nat :=
  match splitOnDot cs with
  | [a, b, c, d] =>
      match parseOctet a, parseOctet b, parseOctet c, parseOctet d with
      | some x, some y, some z, some w =>
          some (((x * 256 + y) * 256 + z) * 256 + w)
      | _, _, _, _ => none
  | _ => none

/-- `Topology.validIPAddress` (topology.py lines 806-821): try to build
`ipaddress.IPv4Address(ip)` and report whether that raised
`ValueError`. -/
def validIPAddress (ip : PyVal) : Bool :=
  (parseIPv4 (pyValChars ip)).isSome

/-- An `ipaddress.ip_network` value from the `exclude-networks`
argument: a network address together with a prefix length. -/
structure IPNet where
  netAddr : Nat
  plen : Nat
deriving DecidableEq, Repr

/-- Python's `ipaddress.IPv4Address(ip) in net`: the address and network
agree on the first `plen` bits. `false` on an unparsable address (the
call sites guard with `validIPAddress` first). -/
def ipInNet (ip : String) (net : IPNet) : Bool :=
  match parseIPv4 ip.toList with
  | some v => v / 2 ^ (32 - net.plen) = net.netAddr / 2 ^ (32 - net.plen)
  | none => false

/-- The effect of `domain_filter.match(name)` with pattern
`^.*?(?P<hostname>[-\w]+)\s?` and the subsequent `groupdict()['hostname']`
access: the first maximal run of word characters and hyphens, or `none`
when the name contains no such character (no regex match). -/
def domainFilterHostname (s : String) : Option String :=
  let isHostChar : Char → Bool := fun c => c.isAlphanum || c = '_' || c = '-'
  let l := s.toList.dropWhile (fun c => ¬ isHostChar c)
  if l.isEmpty then none else some (String.mk (l.takeWhile isHostChar))

/-- The effect of `interface_filter.match(interface)[0]` with pattern
`[a-zA-Z]+` followed by `.lower()`: the leading alphabetic run,
lowercased (empty when the name does not start with a letter). -/
def interfaceTypeName (s : String) : String :=
  (String.mk (s.toList.takeWhile Char.isAlpha)).toLower

/-- `Topology.get_os` (topology.py lines 560-579). -/
def get_os (system_string platform_name : String) : String :=
  if pyInStr "IOS" system_string || pyInStr "IOS" platform_name then
    if pyInStr "XE" system_string || pyInStr "XE" platform_name then "iosxe"
    else if pyInStr "XR" system_string || pyInStr "XR" platform_name then "iosxr"
    else "ios"
  else if pyInStr "NX-OS" system_string || pyInStr "NX-OS" platform_name then "nxos"
  else "LEARN_OS"

/-- The supported-OS set `SUPPORTED_OS` of topology.py line 43. -/
def SUPPORTED_OS : List String := ["nxos", "iosxr", "iosxe", "ios", "LEARN_OS"]

/-- A Python set of strings built in insertion order:
`s.add(x)` ignores an element already present. -/
def pySetAdd (l : List String) (x : String) : List String :=
  if x ∈ l then l else l ++ [x]

/-- `{x for x in xs}`: deduplicate, keeping first occurrences. -/
def pySetOf (xs : List String) : List String :=
  xs.foldl pySetAdd []

/-- Python set union `a.union(b)`. -/
def pySetUnion (a b : List String) : List String :=
  b.foldl pySetAdd a

/-- `validIPAddress` applied to an entire set argument always fails:
`str` of a set starts with a curly bracket, which no dotted-quad octet
may contain. -/
theorem validIPAddress_pset (l : List String) :
    validIPAddress (PyVal.pset l) = false := by
  unfold validIPAddress parseIPv4
  have hhead : ∃ rest, pyValChars (PyVal.pset l) = lbraceChar :: rest := by
    refine ⟨_, rfl⟩
  obtain ⟨rest, hrest⟩ := hhead
  rw [hrest]
  unfold splitOnDot
  cases hs : splitOnDot rest with
  | nil =>
      simp
  | cons p ps =>
      have hne : lbraceChar ≠ '.' := by decide
      simp only [if_neg hne]
      cases ps with
      | nil => simp
      | cons b ps' =>
          cases ps' with
          | nil => simp
          | cons c ps'' =>
              cases ps'' with
              | nil =>
                  have : parseOctet (lbraceChar :: p) = none := by
                    unfold parseOctet
                    have : ¬ (lbraceChar :: p).all Char.isDigit := by
                      simp [List.all_cons]
                      intro hc
                      exact absurd hc (by decide)
                    simp [this]
                  simp [this]
              | cons d ps''' =>
                  cases ps''' with
                  | nil =>
                      have : parseOctet (lbraceChar :: p) = none := by
                        unfold parseOctet
                        have : ¬ (lbraceChar :: p).all Char.isDigit := by
                          simp [List.all_cons]
                          intro hc
                          exact absurd hc (by decide)
                        simp [this]
                      simp [this]
                  | cons e ps'''' => simp

/-! ## Claim C4: `Topology.add_to_device_connections` -/

/-- One recorded connection endpoint: `{'dest_host': …, 'dest_port': …}`. -/
structure ConnEndpoint where
  dest_host : String
  dest_port : String
deriving DecidableEq, Repr

/-- The per-device connection dictionary
`{local interface: [{'dest_host': …, 'dest_port': …}, …]}`. -/
abbrev DeviceConns := List (String × List ConnEndpoint)

/-- `Topology.add_to_device_connections` (topology.py lines 614-657):
if the local interface is not yet a key, record the (dest host, dest
port) entry under it; otherwise append the entry unless an identical
entry is already recorded (the for/else loop). The `dev` argument is
only used by the source for logging. -/
def add_to_device_connections (device_connections : DeviceConns)
    (dest_host dest_port interfaceName dev : String) : DeviceConns :=
  let _ := dev
  let new_entry : ConnEndpoint := ⟨dest_host, dest_port⟩
  match lookupA device_connections interfaceName with
  | none => setKey device_connections interfaceName [new_entry]
  | some entries =>
      if new_entry ∈ entries then device_connections
      else setKey device_connections interfaceName (entries ++ [new_entry])

/-- Number of identical recorded entries for a given local interface. -/
def entryCount (device_connections : DeviceConns)
    (dest_host dest_port interfaceName : String) : Nat :=
  match lookupA device_connections interfaceName with
  | none => 0
  | some entries => entries.count ⟨dest_host, dest_port⟩

theorem entryCount_add (dc : DeviceConns) (h p i d : String) :
    entryCount (add_to_device_connections dc h p i d) h p i =
      max (entryCount dc h p i) 1 := by
  unfold add_to_device_connections entryCount
  cases hl : lookupA dc i with
  | none => simp [hl, List.count_cons]
  | some entries =>
      by_cases hm : (⟨h, p⟩ : ConnEndpoint) ∈ entries
      · have h1 : 1 ≤ entries.count (⟨h, p⟩ : ConnEndpoint) := List.one_le_count_iff.mpr hm
        simp [hl, hm]
      · have : entries.count (⟨h, p⟩ : ConnEndpoint) = 0 := List.count_eq_zero.mpr hm
        simp [hl, hm, List.count_append, this]

theorem add_to_device_connections_idem (dc : DeviceConns) (h p i d d' : String) :
    add_to_device_connections (add_to_device_connections dc h p i d) h p i d' =
      add_to_device_connections dc h p i d := by
  unfold add_to_device_connections
  cases hl : lookupA dc i with
  | none =>
      simp only [hl]
      simp [lookupA_setKey_self]
  | some entries =>
      by_cases hm : (⟨h, p⟩ : ConnEndpoint) ∈ entries
      · simp [hl, hm]
      · simp only [hl, if_neg hm]
        simp [lookupA_setKey_self]

/-- C4: the connection-recording merge rule is idempotent: a second call
with the identical (local interface, dest host, dest port) tuple leaves
the map unchanged, and starting from a map without that local interface
the double call yields exactly the single-entry list for it; in general
the recorded multiplicity of the tuple after a call is `max old 1`, so an
identical tuple is recorded exactly once and then silently ignored. -/
theorem C4_add_to_device_connections_idempotent :
    ∀ (dc : DeviceConns) (h p i d d' : String),
      add_to_device_connections (add_to_device_connections dc h p i d) h p i d' =
          add_to_device_connections dc h p i d ∧
      entryCount (add_to_device_connections dc h p i d) h p i =
          max (entryCount dc h p i) 1 ∧
      (lookupA dc i = none →
        lookupA (add_to_device_connections
            (add_to_device_connections dc h p i d) h p i d') i =
          some [⟨h, p⟩]) := by
  intro dc h p i d d'
  refine ⟨add_to_device_connections_idem dc h p i d d', entryCount_add dc h p i d, ?_⟩
  intro hnone
  rw [add_to_device_connections_idem dc h p i d d']
  unfold add_to_device_connections
  simp only [hnone]
  rw [lookupA_setKey_self]

/-! ## Device / testbed data model

Shallow embedding of the genie `Testbed` / `Device` / `Interface` /
`Link` objects as far as the creator code reads and writes them. -/

/-- One hop of a proxy chain: `{'device': …, 'command': …}`. -/
structure Hop where
  device : String
  command : String
deriving DecidableEq, Repr

/-- A connection's `proxy` field: either a plain jump-host name or an
ordered list of hop descriptors. -/
inductive ProxyVal where
  | pstr (s : String)
  | plist (hops : List Hop)
deriving DecidableEq, Repr

/-- Python truthiness of a proxy value (`if proxy:`). -/
def proxyTruthy : ProxyVal → Bool
  | .pstr s => ¬ s.isEmpty
  | .plist hops => ¬ hops.isEmpty

/-- A connection spec as the creator reads and writes it: optional
protocol, target ip, proxy and `via` fields (a missing Python key is
`none`). -/
structure ConnSpec where
  protocol : Option String := none
  ip : Option String := none
  proxy : Option ProxyVal := none
  via : Option String := none
deriving DecidableEq, Repr

/-- An interface object: name, type, the name of the link it belongs to
(if any) and its ipv4 address (if learned). -/
structure TInterface where
  name : String
  typ : String
  link : Option String := none
  ipv4 : Option String := none
deriving DecidableEq, Repr

/-- Credentials: credential-set name → field → value. -/
abbrev CredMap := List (String × List (String × String))

/-- A device object with the attributes the creator uses. -/
structure TDevice where
  name : String
  os : String
  dtype : String := "device"
  connected : Bool := false
  credentials : CredMap := []
  connections : List (String × ConnSpec) := []
  interfaces : List TInterface := []
deriving DecidableEq, Repr

/-- A link object: its name and the (device, interface) endpoints
connected by it. -/
structure PLink where
  name : String
  endpoints : List (String × String)
deriving DecidableEq, Repr

/-- The in-memory testbed graph. -/
structure Testbed where
  devices : List TDevice
  links : List PLink
deriving DecidableEq, Repr

/-- Names of the devices of a testbed (`testbed.devices.keys()`). -/
def deviceNames (devices : List TDevice) : List String :=
  devices.map (·.name)

/-- `testbed.devices[name]` (first device with that name). -/
def findDevice (tb : Testbed) (n : String) : Option TDevice :=
  tb.devices.find? (fun d => d.name = n)

/-- Replace the device called `n` by `f` applied to it. -/
def updateDevice (tb : Testbed) (n : String) (f : TDevice → TDevice) : Testbed :=
  { tb with devices := tb.devices.map (fun d => if d.name = n then f d else d) }

/-- `device.interfaces[i]` lookup by interface name. -/
def findIface (d : TDevice) (i : String) : Option TInterface :=
  d.interfaces.find? (fun x => x.name = i)

/-- `testbed.devices[dev].interfaces[i]`. -/
def findDeviceIface (tb : Testbed) (dev i : String) : Option TInterface :=
  match findDevice tb dev with
  | none => none
  | some d => findIface d i

/-- Set the `link` pointer of interface `i` of device `dev`. -/
def setIfaceLink (tb : Testbed) (dev i lname : String) : Testbed :=
  updateDevice tb dev (fun d =>
    { d with interfaces :=
        d.interfaces.map (fun x => if x.name = i then { x with link := some lname } else x) })

/-- `testbed.links[lname]`. -/
def findLink (tb : Testbed) (lname : String) : Option PLink :=
  tb.links.find? (fun L => L.name = lname)

/-- Append an endpoint to the named link (`link.connect_interface`). -/
def addLinkEndpoint (tb : Testbed) (lname : String) (ep : String × String) : Testbed :=
  { tb with links :=
      tb.links.map (fun L => if L.name = lname then { L with endpoints := L.endpoints ++ [ep] } else L) }

/-! ## `TestbedManager` (testbed_manager.py)

Real device interaction (`device.connect(...)` succeeding or raising) is
abstracted by an `oracle : deviceName → connectionName → Bool` telling
whether a given connection attempt succeeds. -/

/-- `TestbedManager._connect_one_device` (lines 74-152): try the
preferred alias first if one is declared and exists on the device, then
walk the device's connections (skipping `defaults`, restricting to
ssh-protocol connections when `ssh_only`), stopping at the first
successful attempt; the device ends up connected iff some attempt
succeeded. -/
def _connect_one_device (aliasDict : List (String × String)) (ssh_only : Bool)
    (oracle : String → String → Bool) (d : TDevice) : Bool :=
  let aliasOk : Bool :=
    match lookupA aliasDict d.name with
    | some al => if al ∈ keysOf d.connections then oracle d.name al else false
    | none => false
  if aliasOk then true
  else d.connections.any (fun p =>
    if p.1 = "defaults" then false
    else if ¬ ssh_only then oracle d.name p.1
    else decide (p.2.protocol = some "ssh") && oracle d.name p.1)

/-- Result of `TestbedManager.connect_all_devices`: the success / fail /
skip name sets and the device list with the `connected` flags that the
parallel connection attempts produced. -/
structure ConnectResult where
  success : List String
  fail : List String
  skip : List String
  devices : List TDevice
deriving DecidableEq, Repr

/-- The loop body of `connect_all_devices` for one device. -/
def connectStep (supported : List String) (aliasDict : List (String × String))
    (ssh_only : Bool) (oracle : String → String → Bool) (visited : List String)
    (acc : ConnectResult) (d : TDevice) : ConnectResult :=
  if d.connected = true ∨ d.name ∈ visited then
    { acc with devices := acc.devices ++ [d] }
  else if d.os ∉ supported then
    { acc with skip := acc.skip ++ [d.name], devices := acc.devices ++ [d] }
  else if _connect_one_device aliasDict ssh_only oracle d then
    { acc with success := acc.success ++ [d.name],
               devices := acc.devices ++ [{ d with connected := true }] }
  else
    { acc with fail := acc.fail ++ [d.name], devices := acc.devices ++ [d] }

/-- `TestbedManager.connect_all_devices` (lines 34-71): per device —
already-connected or already-visited devices are passed over entirely;
devices whose OS is not supported are put in `skip` without any
connection attempt; all other devices are submitted to
`_connect_one_device` and sorted into `success` / `fail` by its result.
The skip classification never consults `aliasDict`. -/
def connect_all_devices (supported : List String) (aliasDict : List (String × String))
    (ssh_only : Bool) (oracle : String → String → Bool)
    (devices : List TDevice) (visited : List String) : ConnectResult :=
  devices.foldl (connectStep supported aliasDict ssh_only oracle visited)
    ⟨[], [], [], []⟩

/-- `TestbedManager.get_neigbor_data` (lines 255-279): every device not
yet in `visited_devices` is added to it unconditionally; only the
connected, supported-OS ones among them are queued for cdp/lldp
collection. Returns (new visited set, names queued for collection). -/
def gndStep (supported : List String) (acc : List String × List String)
    (d : TDevice) : List String × List String :=
  if d.name ∈ acc.1 then acc
  else (acc.1 ++ [d.name],
        if d.os ∈ supported ∧ d.connected = true then acc.2 ++ [d.name] else acc.2)

/-- Fold of `gndStep` over the testbed devices, starting from the
current visited set and an empty to-test list. -/
def get_neigbor_data (supported : List String) (devices : List TDevice)
    (visited : List String) : List String × List String :=
  devices.foldl (gndStep supported) (visited, [])

/-- The value of a Python variable holding a device-API query result:
the initial empty dict, a `None` returned by the API, or actual parser
output. -/
inductive QRes (α : Type) where
  | emptyDict
  | pyNone
  | val (a : α)
deriving DecidableEq, Repr

/-- `TestbedManager.get_neighbor_info` (lines 281-313): the cdp query
and the lldp query each sit in their own try/except; a raising query
(`Except.error`) leaves that protocol's variable at its initial empty
dict, the other query still runs, and the per-device result dictionary
is always returned. -/
def get_neighbor_info {α β : Type} (supported : List String) (d : TDevice)
    (cdpQ : Except String (QRes α)) (lldpQ : Except String (QRes β)) :
    String × QRes α × QRes β :=
  if d.os ∉ supported ∨ d.connected = false then (d.name, .emptyDict, .emptyDict)
  else
    let cdp := match cdpQ with | .ok r => r | .error _ => .emptyDict
    let lldp := match lldpQ with | .ok r => r | .error _ => .emptyDict
    (d.name, cdp, lldp)

/-! ## CDP / LLDP parser output model (topology.py) -/

/-- One entry of the `show cdp neighbors detail` parser output
(`result['index'][i]`). -/
structure CdpConn where
  system_name : Option String := none
  device_id : String
  port_id : String
  local_interface : String
  software_version : String := ""
  platform : String := ""
  management_addresses : List String := []
  interface_addresses : List String := []
deriving DecidableEq, Repr

/-- The cdp parser result `{'index': {…}}`. -/
structure CdpResult where
  index : List CdpConn
deriving DecidableEq, Repr

/-- One lldp neighbor (`…['neighbors'][name]`). -/
structure LldpNeighbor where
  name : String
  system_description : String := ""
  management_address : Option String := none
  management_address_v4 : Option String := none
deriving DecidableEq, Repr

/-- One `port_id` entry of the lldp parser output. -/
structure LldpPort where
  dest_port : String
  neighbors : List LldpNeighbor
deriving DecidableEq, Repr

/-- One local interface of the lldp parser output. -/
structure LldpIf where
  name : String
  port_id : List LldpPort
deriving DecidableEq, Repr

/-- The lldp parser result (`show lldp neighbors detail`). -/
structure LldpResult where
  total_entries : Nat
  interfaces : List LldpIf
deriving DecidableEq, Repr

/-- The per-device discovery information collected in `device_list`:
discovered interfaces, management addresses, the (finder device,
interface addresses) pair and the classified OS. Addresses can be an
actual string or Python `None` (an absent lldp management address). -/
structure DeviceData where
  ports : List String
  ip : List PyVal
  finder : String × List String
  os : String
deriving DecidableEq, Repr

/-- `device_list`, keyed by discovered device name. -/
abbrev DeviceList := List (String × DeviceData)

/-- Creator configuration: the CLI arguments that the processing
functions read. `exclude_interfaces` stays the raw argument string,
because the source tests membership with Python's substring `in`. -/
structure TopoConfig where
  exclude_interfaces : String := ""
  exclude_networks : List IPNet := []
  only_links : Bool := false
  add_unconnected_interfaces : Bool := false
  telnet_connect : Bool := false
  cred_prompt : Bool := false
  promptedCred : CredMap := []
deriving Repr

/-- `Topology.add_to_device_list` (topology.py lines 581-612): addresses
equal to a management address are dropped from the interface-address
set; a new destination host records all its traits, an already-listed
one only accumulates ports and management addresses. -/
def add_to_device_list (device_list : DeviceList) (dest_host dest_port : String)
    (int_address : List String) (mgmt_address : List PyVal)
    (discover_name os : String) : DeviceList :=
  let int_addr := int_address.filter (fun a => ¬ PyVal.pstr a ∈ mgmt_address)
  match lookupA device_list dest_host with
  | none =>
      setKey device_list dest_host
        { ports := [dest_port], ip := mgmt_address,
          finder := (discover_name, int_addr), os := os }
  | some dd =>
      setKey device_list dest_host
        { dd with ports := pySetAdd dd.ports dest_port,
                  ip := mgmt_address.foldl
                    (fun acc a => if a ∈ acc then acc else acc ++ [a]) dd.ip }

/-- Accumulator threaded through the neighbor-data processing: the
growing `device_list` and the per-device `device_connections`. -/
structure ProcState where
  device_list : DeviceList
  device_connections : DeviceConns
deriving Repr

/-- Processing of a single `result['index']` entry inside
`Topology._process_cdp_information` (topology.py lines 393-480):
resolve and domain-strip the destination host, apply the only-links
testbed check, the exclude-interface substring checks on both interface
names, and the exclude-network checks on the interface / management
address sets; an entry that passes all filters is recorded in the
device list and the device connections. -/
def processCdpEntry (cfg : TopoConfig) (tbNames : List String)
    (device_name : String) (st : ProcState) (conn : CdpConn) : ProcState :=
  let dest_host0 :=
    match conn.system_name with
    | some s => if s.isEmpty then conn.device_id else s
    | none => conn.device_id
  let dest_host := (domainFilterHostname dest_host0).getD dest_host0
  if cfg.only_links = true ∧ dest_host ∉ tbNames then st
  else
    let dest_port := conn.port_id
    let interfaceName := conn.local_interface
    if pyInStr interfaceName cfg.exclude_interfaces then st
    else if pyInStr dest_port cfg.exclude_interfaces then st
    else
      let int_set := pySetOf conn.interface_addresses
      let mgmt_set := pySetOf conn.management_addresses
      let os := get_os conn.software_version conn.platform
      let stop :=
        (int_set.any (fun ip => cfg.exclude_networks.any (fun net =>
          validIPAddress (.pstr ip) && ipInNet ip net))) ||
        (mgmt_set.any (fun ip => cfg.exclude_networks.any (fun net =>
          validIPAddress (.pstr ip) && ipInNet ip net)))
      if stop then st
      else
        { device_list :=
            add_to_device_list st.device_list dest_host dest_port int_set
              (mgmt_set.map PyVal.pstr) device_name os,
          device_connections :=
            add_to_device_connections st.device_connections dest_host dest_port
              interfaceName device_name }

/-- `Topology._process_cdp_information`: fold over `result['index']`. -/
def _process_cdp_information (cfg : TopoConfig) (tbNames : List String)
    (device_name : String) (result : CdpResult) (st : ProcState) : ProcState :=
  result.index.foldl (processCdpEntry cfg tbNames device_name) st

/-- Processing of one `port_id` entry inside
`Topology._process_lldp_information` (topology.py lines 482-558). The
`dest_host` variable of the source survives iterations, so a name the
domain filter cannot match falls back to the previous value (carried as
the `Option String` component; an entry with no usable name at all is
dropped, where the source would raise `NameError`). -/
def processLldpPort (cfg : TopoConfig) (tbNames : List String)
    (device_name interfaceName : String) (acc : ProcState × Option String)
    (port : LldpPort) : ProcState × Option String :=
  match port.neighbors.head? with
  | none => acc
  | some nb =>
      let st := acc.1
      match (domainFilterHostname nb.name).orElse (fun _ => acc.2) with
      | none => acc
      | some dest_host =>
          let acc' := (st, some dest_host)
          if cfg.only_links = true ∧ dest_host ∉ tbNames then acc'
          else if pyInStr interfaceName cfg.exclude_interfaces then acc'
          else if pyInStr port.dest_port cfg.exclude_interfaces then acc'
          else
            let ip_address := nb.management_address.orElse (fun _ => nb.management_address_v4)
            let os := get_os nb.system_description ""
            let stop :=
              match ip_address with
              | some ipa =>
                  decide (cfg.exclude_networks ≠ []) &&
                    cfg.exclude_networks.any (fun net =>
                      validIPAddress (.pstr ipa) && ipInNet ipa net)
              | none => false
            if stop then acc'
            else
              let mgmtVal : PyVal :=
                match ip_address with
                | some ipa => .pstr ipa
                | none => .pnone
              ({ device_list :=
                   add_to_device_list st.device_list dest_host port.dest_port []
                     [mgmtVal] device_name os,
                 device_connections :=
                   add_to_device_connections st.device_connections dest_host
                     port.dest_port interfaceName device_name },
               some dest_host)

/-- `Topology._process_lldp_information`: fold over
`result['interfaces']` and each interface's `port_id` entries. -/
def _process_lldp_information (cfg : TopoConfig) (tbNames : List String)
    (device_name : String) (result : LldpResult) (st : ProcState) : ProcState :=
  (result.interfaces.foldl (fun acc li =>
      li.port_id.foldl (processLldpPort cfg tbNames device_name li.name) acc)
    (st, none)).1

/-- The raw neighbor data returned for one device by
`get_neighbor_info` (a `{device: {'cdp': …, 'lldp': …}}` entry). -/
structure RawDeviceResult where
  name : String
  cdp : QRes CdpResult
  lldp : QRes LldpResult
deriving Repr

/-- `Topology.get_device_connections` (topology.py lines 356-391): run
the cdp processing when the cdp value is truthy, then the lldp
processing when the lldp value is truthy with a non-zero
`total_entries`. -/
def get_device_connections (cfg : TopoConfig) (tbNames : List String)
    (data : RawDeviceResult) (device_list : DeviceList) : ProcState :=
  let st : ProcState := ⟨device_list, []⟩
  let st :=
    match data.cdp with
    | .val r => _process_cdp_information cfg tbNames data.name r st
    | _ => st
  match data.lldp with
  | .val r =>
      if r.total_entries ≠ 0 then
        _process_lldp_information cfg tbNames data.name r st
      else st
  | _ => st

/-- `Topology.process_neighbor_data` (topology.py lines 327-354): build
the `{device: device_connections}` dictionary, threading `device_list`
through the per-device processing. -/
def process_neighbor_data (cfg : TopoConfig) (tbNames : List String)
    (device_list : DeviceList) (result : List RawDeviceResult) :
    List (String × DeviceConns) × DeviceList :=
  result.foldl (fun acc entry =>
    let st := get_device_connections cfg tbNames entry acc.2
    (setKey acc.1 entry.name st.device_connections, st.device_list))
    ([], device_list)

/-! ## Proxy chains and new-device creation (topology.py) -/

/-- Replace the `command` of the last hop of a proxy list
(`new_proxy[-1]['command'] = …`; unchanged when the list is empty, a
case the caller turns into `IndexError`). -/
def setLastCommand (hops : List Hop) (cmd : String) : List Hop :=
  match hops.getLast? with
  | none => hops
  | some h => hops.dropLast ++ [⟨h.device, cmd⟩]

/-- `str(conn_ip)` for the optional `ip` attribute of a connection. -/
def pyStrOfOptIp : Option String → String
  | some s => s
  | none => "None"

/-- The search loop of `write_proxy_chain`: the first connection (other
than `defaults`) whose protocol is `ssh` and which carries a `proxy`
key, together with that connection's `ip`. -/
def findSshProxyConn : List (String × ConnSpec) → Option (ProxyVal × Option String)
  | [] => none
  | (cname, c) :: rest =>
      if cname = "defaults" then findSshProxyConn rest
      else
        match c.proxy with
        | some p => if c.protocol = some "ssh" then some (p, c.ip) else findSshProxyConn rest
        | none => findSshProxyConn rest

/-- `Topology.write_proxy_chain` (topology.py lines 837-882). `.error`
models the uncaught Python exceptions: `KeyError` when the finder device
or its default username is missing, `IndexError` when an existing proxy
hop list is empty. -/
def write_proxy_chain (finder_name : String) (tb : Testbed)
    (credentials : CredMap) (ip : String) : Except String ProxyVal :=
  match findDevice tb finder_name with
  | none => .error "KeyError: finder device"
  | some finder_device =>
      match lookupA credentials "default" with
      | none => .error "KeyError: default credential"
      | some defaultCred =>
          match lookupA defaultCred "username" with
          | none => .error "KeyError: username"
          | some user =>
              match findSshProxyConn finder_device.connections with
              | none => .ok (.pstr finder_name)
              | some (new_proxy, conn_ip) =>
                  match new_proxy with
                  | .plist [] => .error "IndexError"
                  | .plist hops =>
                      .ok (.plist
                        (setLastCommand hops
                            ("ssh " ++ user ++ "@" ++ pyStrOfOptIp conn_ip) ++
                          [⟨finder_name, "ssh " ++ user ++ "@" ++ ip⟩]))
                  | .pstr s =>
                      .ok (.plist
                        [⟨s, "ssh " ++ pyStrOfOptIp conn_ip⟩,
                         ⟨finder_name, "ssh " ++ user ++ "@" ++ ip⟩])

/-- The management-address connection loop of `create_new_device`
(topology.py lines 758-777): for each valid address, one connection per
known proxy plus a plain one; the first address uses the plain names,
later addresses are prefixed `Variant <count>`. The enumeration index
advances for invalid addresses too. -/
def mgmtConnLoop (protocol : String) (proxy_set : List String)
    (ips : List PyVal) : List (String × ConnSpec) :=
  (ips.enum).foldl (fun conns p =>
    let (count, ip) := p
    if validIPAddress ip then
      let ipStr := String.mk (pyValChars ip)
      if count = 0 then
        let conns := proxy_set.foldl (fun cs proxy =>
          setKey cs proxy
            { protocol := some protocol, ip := some ipStr,
              proxy := some (.pstr proxy) }) conns
        setKey conns "default" { protocol := some protocol, ip := some ipStr }
      else
        let conns := proxy_set.foldl (fun cs proxy =>
          setKey cs ("Variant " ++ toString count ++ " " ++ proxy)
            { protocol := some protocol, ip := some ipStr,
              proxy := some (.pstr proxy) }) conns
        setKey conns ("Variant " ++ toString count)
          { protocol := some protocol, ip := some ipStr }
    else conns) []

/-- `Topology.create_new_device` (topology.py lines 729-804): build the
management-address connections, then — guarded by
`device_data['finder'][1] and validIPAddress(device_data['finder'][1])`,
where the *whole set* of finder interface addresses is handed to
`validIPAddress` — possibly a `finder_proxy` connection per interface
address; finally assemble the device with its discovered interfaces. -/
def create_new_device (cfg : TopoConfig) (tb : Testbed) (device_data : DeviceData)
    (proxy_set : List String) (device_name : String) : TDevice :=
  let finder := device_data.finder
  let finderCred := ((findDevice tb finder.1).map (·.credentials)).getD []
  let protocol := if cfg.telnet_connect then "telnet" else "ssh"
  let credentials := if cfg.cred_prompt then cfg.promptedCred else finderCred
  let conns := mgmtConnLoop protocol proxy_set device_data.ip
  let conns :=
    if decide (finder.2 ≠ []) && validIPAddress (.pset finder.2) then
      finder.2.foldl (fun cs ip =>
        match write_proxy_chain finder.1 tb credentials ip with
        | .ok fp =>
            setKey cs "finder_proxy"
              { protocol := some protocol, ip := some ip, proxy := some fp }
        | .error _ => cs) conns
    else conns
  { name := device_name, os := device_data.os, dtype := "device",
    connected := false, credentials := credentials, connections := conns,
    interfaces := device_data.ports.map (fun p =>
      { name := p, typ := interfaceTypeName p }) }

/-- Add an interface of the given name to a device if it does not exist
yet (the interface-creation pattern of `_write_devices_into_testbed`). -/
def addIfaceIfMissing (d : TDevice) (i : String) : TDevice :=
  match findIface d i with
  | some _ => d
  | none => { d with interfaces := d.interfaces ++ [{ name := i, typ := interfaceTypeName i }] }

/-- `Topology._write_devices_into_testbed` (topology.py lines 674-727):
new devices from `device_list` are created and added; for known devices
either every interface reported by `show interfaces description`
(obtained from the `showIfEnv` environment) or just the discovered ports
are added when missing. Returns the updated testbed and the new device
names. -/
def addMissingIfaces (device_name : String) (ifaces : List String) (tb : Testbed) :
    Testbed :=
  ifaces.foldl (fun tb i => updateDevice tb device_name (fun d => addIfaceIfMissing d i)) tb

/-- One `device_list` entry of `_write_devices_into_testbed`. -/
def writeDeviceStep (cfg : TopoConfig) (showIfEnv : String → List String)
    (proxy_set : List String) (acc : Testbed × List String)
    (p : String × DeviceData) : Testbed × List String :=
  match findDevice acc.1 p.1 with
  | none =>
      let nd := create_new_device cfg acc.1 p.2 proxy_set p.1
      ({ acc.1 with devices := acc.1.devices ++ [nd] }, acc.2 ++ [p.1])
  | some _ =>
      if cfg.add_unconnected_interfaces then
        (addMissingIfaces p.1 (showIfEnv p.1) acc.1, acc.2)
      else
        (addMissingIfaces p.1 p.2.ports acc.1, acc.2)

/-- Fold of `writeDeviceStep` over `device_list`; the credential
dictionary only flows into new devices through the creator config in
this embedding. -/
def _write_devices_into_testbed (cfg : TopoConfig) (showIfEnv : String → List String)
    (device_list : DeviceList) (proxy_set : List String) (credential_dict : CredMap)
    (tb : Testbed) : Testbed × List String :=
  let _ := credential_dict
  device_list.foldl (writeDeviceStep cfg showIfEnv proxy_set) (tb, [])

/-- Gathering of the `int_list` of `_write_connections_to_testbed`:
the destination interfaces of the entries, deduplicated, those absent
from the testbed passed over (the source would raise `KeyError`; its
callers establish presence). -/
def gatherIntList (tb : Testbed) (entries : List ConnEndpoint)
    (init : List (String × String)) : List (String × String) :=
  entries.foldl (fun il e =>
    match findDeviceIface tb e.dest_host e.dest_port with
    | some _ =>
        if (e.dest_host, e.dest_port) ∈ il then il
        else il ++ [(e.dest_host, e.dest_port)]
    | none => il) init

/-- Extension of an existing link by one destination interface
(`link.connect_interface` guarded by the membership check). -/
def extendLink (lname : String) (tb : Testbed) (e : ConnEndpoint) : Testbed :=
  match findLink tb lname with
  | none => tb
  | some L =>
      if (e.dest_host, e.dest_port) ∈ L.endpoints then tb
      else
        match findDeviceIface tb e.dest_host e.dest_port with
        | none => tb
        | some _ =>
            setIfaceLink (addLinkEndpoint tb lname (e.dest_host, e.dest_port))
              e.dest_host e.dest_port lname

/-- Creation of a fresh link over the gathered interface list. -/
def makeNewLink (tb : Testbed) (int_list : List (String × String)) : Testbed :=
  if int_list.length > 1 then
    let lname := "Link_" ++ toString tb.links.length
    let tb2 := int_list.foldl (fun tb ep => setIfaceLink tb ep.1 ep.2 lname) tb
    { tb2 with links := tb2.links ++ [⟨lname, int_list⟩] }
  else tb

/-- Writing of the connections of one local interface of one device in
`Topology._write_connections_to_testbed` (topology.py lines 884-934):
ensure the local interface exists, then either create a fresh link
joining it with all (existing) destination interfaces, or extend the
interface's existing link with the destination interfaces it misses. -/
def writeConnIface (devName ifaceName : String) (entries : List ConnEndpoint)
    (tb : Testbed) : Testbed :=
  match findDevice tb devName with
  | none => tb
  | some dev0 =>
      let tb :=
        match findIface dev0 ifaceName with
        | none => updateDevice tb devName (fun d => addIfaceIfMissing d ifaceName)
        | some _ => tb
      match findDeviceIface tb devName ifaceName with
      | none => tb
      | some iface =>
          match iface.link with
          | none =>
              makeNewLink tb (gatherIntList tb entries [(devName, ifaceName)])
          | some lname =>
              entries.foldl (extendLink lname) tb

/-- `Topology._write_connections_to_testbed`: iterate the per-device
connection dictionaries. -/
def _write_connections_to_testbed (connection_dict : List (String × DeviceConns))
    (tb : Testbed) : Testbed :=
  connection_dict.foldl (fun tb p =>
    p.2.foldl (fun tb q => writeConnIface p.1 q.1 q.2 tb) tb) tb

/-! ## The testbed yaml document and `create_yaml_dict` (topology.py) -/

/-- A `devices` entry of the yaml document, with the fields
`create_yaml_dict` writes for a generated device; entries present in the
seed document instantiate the same shape. -/
structure DocDevice where
  dtype : String
  os : String
  credentials : CredMap
  connections : List (String × ConnSpec)
  generatedCustom : Bool
deriving DecidableEq, Repr

/-- One interface entry of the `topology` section. -/
structure IfaceEntry where
  typ : String
  link : Option String := none
  ipv4 : Option String := none
deriving DecidableEq, Repr

/-- One device entry of the `topology` section. -/
structure TopoDevEntry where
  interfaces : List (String × IfaceEntry)
deriving DecidableEq, Repr

/-- The testbed yaml document (the parts the creator touches). -/
structure Doc where
  devices : List (String × DocDevice)
  topology : Option (List (String × TopoDevEntry))
deriving DecidableEq, Repr

/-- The connection dictionary written for a brand-new document device in
`create_yaml_dict` (topology.py lines 958-971): every device connection
except `finder_proxy` and `defaults`, flattened to protocol/ip plus the
proxy when truthy, with a `defaults` entry appended when a `default`
connection exists. -/
def mkDocConnDict (conns : List (String × ConnSpec)) : List (String × ConnSpec) :=
  let cd := conns.foldl (fun cd p =>
    if p.1 = "finder_proxy" ∨ p.1 = "defaults" then cd
    else
      let base : ConnSpec := { protocol := p.2.protocol, ip := p.2.ip }
      let base :=
        match p.2.proxy with
        | some prx => if proxyTruthy prx then { base with proxy := some prx } else base
        | none => base
      setKey cd p.1 base) []
  if "default" ∈ keysOf cd then
    setKey cd "defaults" { via := some "default" }
  else cd

/-- The document device entry written for a testbed device absent from
the document. -/
def mkDocDevice (d : TDevice) (credential_dict : CredMap) : DocDevice :=
  { dtype := d.dtype, os := d.os, credentials := credential_dict,
    connections := mkDocConnDict d.connections, generatedCustom := true }

/-- The `devices`-section pass of `create_yaml_dict` (topology.py lines
948-971): add an entry for every testbed device whose name is not yet a
key of the document's `devices`. -/
def cydStep (credential_dict : CredMap) (acc : List (String × DocDevice))
    (d : TDevice) : List (String × DocDevice) :=
  if d.name ∈ keysOf acc then acc
  else setKey acc d.name (mkDocDevice d credential_dict)

/-- Fold of `cydStep` over the testbed devices. -/
def cydDevices (tb : Testbed) (docDevs : List (String × DocDevice))
    (credential_dict : CredMap) : List (String × DocDevice) :=
  tb.devices.foldl (cydStep credential_dict) docDevs

/-- The interface dictionary built for one device (topology.py lines
973-981). -/
def mkIfaceDict (d : TDevice) : List (String × IfaceEntry) :=
  d.interfaces.foldl (fun m i =>
    setKey m i.name { typ := i.typ, link := i.link, ipv4 := i.ipv4 }) []

/-- The fresh `topology` section built from the testbed (topology.py
lines 973-985): devices contribute an entry iff their interface
dictionary is non-empty. -/
def cydTopo (tb : Testbed) : List (String × TopoDevEntry) :=
  tb.devices.foldl (fun acc d =>
    if mkIfaceDict d ≠ [] then setKey acc d.name ⟨mkIfaceDict d⟩ else acc) []

/-- `Topology.create_yaml_dict` (topology.py lines 936-1000): write
missing devices into the `devices` section, then either install the
fresh topology wholesale (document without a `topology` section) or
merge it additively: new topology devices are added, existing ones have
their `interfaces` dictionary updated in place. -/
def mergeTopoEntry (T : List (String × TopoDevEntry)) (p : String × TopoDevEntry) :
    List (String × TopoDevEntry) :=
  match lookupA T p.1 with
  | none => setKey T p.1 p.2
  | some old =>
      if p.2.interfaces ≠ [] then
        setKey T p.1 ⟨updateAll old.interfaces p.2.interfaces⟩
      else T

/-- Body of `create_yaml_dict` proper: devices pass, then topology
installation or additive merge. -/
def create_yaml_dict (tb : Testbed) (doc : Doc) (credential_dict : CredMap) : Doc :=
  let devs := cydDevices tb doc.devices credential_dict
  let topo := cydTopo tb
  match doc.topology with
  | none => { devices := devs, topology := some topo }
  | some T => { devices := devs, topology := some (topo.foldl mergeTopoEntry T) }

/-- `TestbedManager.get_interfaces_ipV4_address` over the whole testbed
(the post-loop `pcall` of `_generate`): fill in missing interface ipv4
addresses from the `ipEnv` environment (the device API); never touches
`link` or existing addresses, and skips unconnected or unsupported
devices. -/
def applyIpv4 (supported : List String) (ipEnv : String → String → Option String)
    (tb : Testbed) : Testbed :=
  { tb with devices := tb.devices.map (fun d =>
      if d.connected = true ∧ d.os ∈ supported ∧ d.interfaces.length ≥ 1 then
        { d with interfaces := d.interfaces.map (fun i =>
            match i.ipv4 with
            | some _ => i
            | none =>
                match ipEnv d.name i.name with
                | some ip => { i with ipv4 := some ip }
                | none => i) }
      else d) }

/-! ## One discovery round and the discovery loop (topology.py `_generate`) -/

/-- The discovery state threaded through rounds of `_generate`:
the testbed graph, the manager's visited set and the cross-round
`device_list`. -/
structure DiscoveryState where
  tb : Testbed
  visited : List String
  device_list : DeviceList

/-- The per-round environment: the outcome of each connection attempt
and the raw neighbor data the network returns this round. -/
structure RoundInput where
  oracle : String → String → Bool
  raw : List RawDeviceResult

/-- One iteration of the `while` loop of `Topology._generate`
(topology.py lines 211-272): connect to unvisited devices, mark devices
visited and collect neighbor data (the data itself coming from the
round's environment), process it into connections and the device list,
write new devices into the testbed, then write the connections. -/
def topoRound (cfg : TopoConfig) (supported : List String)
    (aliasDict : List (String × String)) (ssh_only : Bool)
    (proxy_set : List String) (credential_dict : CredMap)
    (showIfEnv : String → List String) (inp : RoundInput)
    (st : DiscoveryState) : DiscoveryState :=
  let cr := connect_all_devices supported aliasDict ssh_only inp.oracle
    st.tb.devices st.visited
  let tb1 : Testbed := { st.tb with devices := cr.devices }
  let gn := get_neigbor_data supported tb1.devices st.visited
  let pr := process_neighbor_data cfg (deviceNames tb1.devices) st.device_list inp.raw
  let wd := _write_devices_into_testbed cfg showIfEnv pr.2 proxy_set credential_dict tb1
  let tb3 := _write_connections_to_testbed pr.1 wd.1
  { tb := tb3, visited := gn.1, device_list := pr.2 }

/-- A whole discovery run: fold the rounds over the seed state.
Quantifying theorems over the round list covers any number of rounds
(`only_links` gives a one-element list). -/
def runDiscovery (cfg : TopoConfig) (supported : List String)
    (aliasDict : List (String × String)) (ssh_only : Bool)
    (proxy_set : List String) (credential_dict : CredMap)
    (showIfEnv : String → List String) (rounds : List RoundInput)
    (st : DiscoveryState) : DiscoveryState :=
  rounds.foldl (fun st inp =>
    topoRound cfg supported aliasDict ssh_only proxy_set credential_dict showIfEnv inp st) st

/-- The loop skeleton of `Topology._generate` at the granularity claims
C1/C2/C9 speak about: the devices known to the testbed and the visited
set. Device discovery (`_write_devices_into_testbed` growing
`testbed.devices`) is abstracted into the environment's `discover`
function. -/
structure LoopState where
  devices : List TDevice
  visited : List String
deriving Repr

/-- The loop environment: the finite universe of devices that exist on
the network, the connection oracle, and which new devices a round's
neighbor data contributes. -/
structure LoopEnv where
  univ : List TDevice
  oracle : String → String → Bool
  discover : List TDevice → List String → List TDevice

/-- One iteration body of the `while` loop of `_generate`: connect to
unvisited devices, mark every device visited via `get_neigbor_data`,
then extend the testbed with the newly discovered devices. -/
def discoveryRound (supported : List String) (aliasDict : List (String × String))
    (ssh_only : Bool) (env : LoopEnv) (st : LoopState) : LoopState :=
  let cr := connect_all_devices supported aliasDict ssh_only env.oracle
    st.devices st.visited
  let gn := get_neigbor_data supported cr.devices st.visited
  let newDevs := env.discover cr.devices gn.1
  { devices := cr.devices ++ newDevs, visited := gn.1 }

/-- The `while len(testbed.devices) > len(visited_devices)` loop of
`_generate` (topology.py lines 211-272) with an explicit fuel. Returns
the final state and the number of rounds run, or `none` if the fuel ran
out before the guard became false. In only-links mode the loop body runs
once and `break`s. -/
def generateLoop (supported : List String) (aliasDict : List (String × String))
    (ssh_only : Bool) (only_links : Bool) (env : LoopEnv) :
    Nat → LoopState → Option (LoopState × Nat)
  | 0, st =>
      if st.devices.length > st.visited.length then none else some (st, 0)
  | fuel + 1, st =>
      if st.devices.length > st.visited.length then
        let st' := discoveryRound supported aliasDict ssh_only env st
        if only_links then some (st', 1)
        else
          match generateLoop supported aliasDict ssh_only only_links env fuel st' with
          | some (fin, n) => some (fin, n + 1)
          | none => none
      else some (st, 0)

/-! ## Claim C10: the `finder_proxy` branch of `create_new_device` -/

/-- C10: `validIPAddress` applied to the entire finder
interface-address set returns `False` for every set argument, so the
finder-proxy guard of `create_new_device` can never hold and a created
device carries exactly the management-address connections built by the
enumeration loop — no `finder_proxy` connection. -/
theorem C10_create_new_device_no_finder_proxy :
    (∀ l : List String, validIPAddress (PyVal.pset l) = false) ∧
    (∀ (cfg : TopoConfig) (tb : Testbed) (dd : DeviceData)
        (proxy_set : List String) (device_name : String),
      (create_new_device cfg tb dd proxy_set device_name).connections =
        mgmtConnLoop (if cfg.telnet_connect then "telnet" else "ssh")
          proxy_set dd.ip) := by
  refine ⟨validIPAddress_pset, ?_⟩
  intro cfg tb dd proxy_set device_name
  unfold create_new_device
  simp [validIPAddress_pset]

/-! ## Claim C7: `Topology.write_proxy_chain` -/

theorem setLastCommand_length (hops : List Hop) (cmd : String) :
    (setLastCommand hops cmd).length = hops.length := by
  unfold setLastCommand
  cases h : hops.getLast? with
  | none => rfl
  | some x =>
      have hne : hops ≠ [] := by
        intro he
        subst he
        simp at h
      have hpos : 0 < hops.length := List.length_pos.mpr hne
      simp [List.length_dropLast]
      omega

/-- C7: `write_proxy_chain` always yields a flat proxy: with no proxied
ssh connection on the finder it returns the finder's name; with a
plain-string proxy it returns the ordered two-hop list ending in the
finder; with an existing non-empty hop list it returns that list
(its last command updated) extended by exactly one further hop naming
the finder — never a nested structure. -/
theorem C7_write_proxy_chain_flat
    (tb : Testbed) (finder_name ip : String) (credentials : CredMap)
    (fd : TDevice) (defaultCred : List (String × String)) (user : String)
    (hfd : findDevice tb finder_name = some fd)
    (hc : lookupA credentials "default" = some defaultCred)
    (hu : lookupA defaultCred "username" = some user) :
    (findSshProxyConn fd.connections = none →
      write_proxy_chain finder_name tb credentials ip =
        .ok (.pstr finder_name)) ∧
    (∀ s conn_ip, findSshProxyConn fd.connections = some (.pstr s, conn_ip) →
      write_proxy_chain finder_name tb credentials ip =
        .ok (.plist [⟨s, "ssh " ++ pyStrOfOptIp conn_ip⟩,
                     ⟨finder_name, "ssh " ++ user ++ "@" ++ ip⟩])) ∧
    (∀ hops conn_ip, hops ≠ [] →
      findSshProxyConn fd.connections = some (.plist hops, conn_ip) →
      ∃ res, write_proxy_chain finder_name tb credentials ip = .ok (.plist res) ∧
        res = setLastCommand hops ("ssh " ++ user ++ "@" ++ pyStrOfOptIp conn_ip) ++
          [⟨finder_name, "ssh " ++ user ++ "@" ++ ip⟩] ∧
        res.length = hops.length + 1 ∧
        res.getLast? = some ⟨finder_name, "ssh " ++ user ++ "@" ++ ip⟩) := by
  refine ⟨?_, ?_, ?_⟩
  · intro hnone
    simp only [write_proxy_chain, hfd, hc, hu, hnone]
  · intro s conn_ip hsome
    simp only [write_proxy_chain, hfd, hc, hu, hsome]
  · intro hops conn_ip hne hsome
    cases hops with
    | nil => exact absurd rfl hne
    | cons a t =>
        refine ⟨_, ?_, rfl, ?_, ?_⟩
        · simp only [write_proxy_chain, hfd, hc, hu, hsome]
        · rw [List.length_append, setLastCommand_length]
          rfl
        · rw [List.getLast?_append]
          rfl

/-- Concrete finder device used by the C7 witness. -/
def fdC7 : TDevice :=
  { name := "finder1", os := "iosxe",
    credentials := [("default", [("username", "admin")])],
    connections :=
      [("cli", { protocol := some "ssh", ip := some "10.1.1.1",
                 proxy := some (.pstr "jump1") })] }

/-- Concrete testbed used by the C7 witness. -/
def tbC7 : Testbed := { devices := [fdC7], links := [] }

/-- Witness for C7 at a concrete finder whose existing ssh connection
carries a plain-string proxy: the result is the flat two-hop list ending
at the finder. -/
theorem C7_witness :
    write_proxy_chain "finder1" tbC7 fdC7.credentials "10.2.2.2" =
      .ok (.plist [⟨"jump1", "ssh 10.1.1.1"⟩, ⟨"finder1", "ssh admin@10.2.2.2"⟩]) := by
  have h := (C7_write_proxy_chain_flat tbC7 "finder1" "10.2.2.2" fdC7.credentials
      fdC7 [("username", "admin")] "admin" (by decide) (by decide) (by decide)).2.1
      "jump1" (some "10.1.1.1") (by decide)
  simpa using h

/-! ## Claim C6: `TestbedManager.get_neighbor_info` -/

/-- C6: for a connected, supported-OS device the cdp and lldp queries
are independent: an exception in either is absorbed — that protocol's
slot is the initial empty dict, the other protocol's result is exactly
what it would have been anyway — and the per-device result tuple is
always produced (no exception propagates). -/
theorem C6_get_neighbor_info_independent {α β : Type}
    (supported : List String) (d : TDevice)
    (hos : d.os ∈ supported) (hconn : d.connected = true) :
    (∀ (e : String) (lldpQ : Except String (QRes β)),
      (get_neighbor_info (α := α) supported d (.error e) lldpQ).2.1 = .emptyDict ∧
      ∀ r : QRes α,
        (get_neighbor_info (α := α) supported d (.error e) lldpQ).2.2 =
          (get_neighbor_info supported d (.ok r) lldpQ).2.2) ∧
    (∀ (e : String) (cdpQ : Except String (QRes α)),
      (get_neighbor_info (β := β) supported d cdpQ (.error e)).2.2 = .emptyDict ∧
      ∀ r : QRes β,
        (get_neighbor_info (β := β) supported d cdpQ (.error e)).2.1 =
          (get_neighbor_info supported d cdpQ (.ok r)).2.1) ∧
    (∀ (cdpQ : Except String (QRes α)) (lldpQ : Except String (QRes β)),
      (get_neighbor_info supported d cdpQ lldpQ).1 = d.name) := by
  have hguard : ¬ (d.os ∉ supported ∨ d.connected = false) := by
    simp [hos, hconn]
  refine ⟨?_, ?_, ?_⟩
  · intro e lldpQ
    constructor
    · unfold get_neighbor_info
      rw [if_neg hguard]
    · intro r
      unfold get_neighbor_info
      rw [if_neg hguard, if_neg hguard]
  · intro e cdpQ
    constructor
    · unfold get_neighbor_info
      rw [if_neg hguard]
    · intro r
      unfold get_neighbor_info
      rw [if_neg hguard, if_neg hguard]
  · intro cdpQ lldpQ
    unfold get_neighbor_info
    by_cases hg : d.os ∉ supported ∨ d.connected = false
    · rw [if_pos hg]
    · rw [if_neg hg]

/-- Concrete device used by the C6 witness. -/
def dC6 : TDevice := { name := "R1", os := "ios", connected := true }

/-- Witness for C6 at a concrete connected ios device: a raising cdp
query leaves an empty cdp slot while the lldp result is unaffected. -/
theorem C6_witness :
    (get_neighbor_info (α := CdpResult) (β := LldpResult) ["ios"] dC6
        (.error "ConnectionError") (.ok (.val ⟨3, []⟩))).2.1 = .emptyDict ∧
    (get_neighbor_info (α := CdpResult) (β := LldpResult) ["ios"] dC6
        (.error "ConnectionError") (.ok (.val ⟨3, []⟩))).2.2 =
      (get_neighbor_info (α := CdpResult) (β := LldpResult) ["ios"] dC6
        (.ok (.val ⟨[]⟩)) (.ok (.val ⟨3, []⟩))).2.2 := by
  have h := (C6_get_neighbor_info_independent (α := CdpResult) (β := LldpResult)
      ["ios"] dC6 (by decide) rfl).1 "ConnectionError" (.ok (.val ⟨3, []⟩))
  exact ⟨h.1, h.2 (.val ⟨[]⟩)⟩

/-! ## Behaviour of the `connect_all_devices` fold -/

/-- The deterministic effect of a round of connection attempts on a
single device: only devices that are actually submitted can gain the
`connected` flag. -/
def connectTransform (supported : List String) (aliasDict : List (String × String))
    (ssh_only : Bool) (oracle : String → String → Bool) (visited : List String)
    (d : TDevice) : TDevice :=
  if d.connected = true ∨ d.name ∈ visited then d
  else if d.os ∉ supported then d
  else if _connect_one_device aliasDict ssh_only oracle d then
    { d with connected := true }
  else d

theorem connectStep_skip_eq (supported : List String) (aliasDict : List (String × String))
    (ssh_only : Bool) (oracle : String → String → Bool) (visited : List String)
    (acc : ConnectResult) (d : TDevice) :
    (connectStep supported aliasDict ssh_only oracle visited acc d).skip =
      if d.connected = false ∧ d.name ∉ visited ∧ d.os ∉ supported then
        acc.skip ++ [d.name]
      else acc.skip := by
  unfold connectStep
  by_cases h1 : d.connected = true ∨ d.name ∈ visited
  · have hno : ¬ (d.connected = false ∧ d.name ∉ visited ∧ d.os ∉ supported) := by
      rintro ⟨hc, hv, _⟩
      rcases h1 with h1 | h1
      · rw [h1] at hc; cases hc
      · exact hv h1
    rw [if_pos h1, if_neg hno]
  · push_neg at h1
    have hc : d.connected = false := by
      cases hcd : d.connected
      · rfl
      · exact absurd hcd h1.1
    have h1' : ¬ (d.connected = true ∨ d.name ∈ visited) := by
      rintro (h | h)
      · exact h1.1 h
      · exact h1.2 h
    by_cases h2 : d.os ∉ supported
    · rw [if_neg h1', if_pos h2, if_pos ⟨hc, h1.2, h2⟩]
    · have hno : ¬ (d.connected = false ∧ d.name ∉ visited ∧ d.os ∉ supported) := by
        rintro ⟨_, _, ho⟩
        exact h2 ho
      rw [if_neg h1', if_neg h2, if_neg hno]
      by_cases h3 : _connect_one_device aliasDict ssh_only oracle d
      · rw [if_pos h3]
      · rw [if_neg h3]

theorem connectStep_success_eq (supported : List String) (aliasDict : List (String × String))
    (ssh_only : Bool) (oracle : String → String → Bool) (visited : List String)
    (acc : ConnectResult) (d : TDevice) :
    (connectStep supported aliasDict ssh_only oracle visited acc d).success =
      if d.connected = false ∧ d.name ∉ visited ∧ d.os ∈ supported ∧
          _connect_one_device aliasDict ssh_only oracle d = true then
        acc.success ++ [d.name]
      else acc.success := by
  unfold connectStep
  by_cases h1 : d.connected = true ∨ d.name ∈ visited
  · have hno : ¬ (d.connected = false ∧ d.name ∉ visited ∧ d.os ∈ supported ∧
        _connect_one_device aliasDict ssh_only oracle d = true) := by
      rintro ⟨hc, hv, _⟩
      rcases h1 with h1 | h1
      · rw [h1] at hc; cases hc
      · exact hv h1
    rw [if_pos h1, if_neg hno]
  · push_neg at h1
    have hc : d.connected = false := by
      cases hcd : d.connected
      · rfl
      · exact absurd hcd h1.1
    have h1' : ¬ (d.connected = true ∨ d.name ∈ visited) := by
      rintro (h | h)
      · exact h1.1 h
      · exact h1.2 h
    by_cases h2 : d.os ∉ supported
    · have hno : ¬ (d.connected = false ∧ d.name ∉ visited ∧ d.os ∈ supported ∧
          _connect_one_device aliasDict ssh_only oracle d = true) := by
        rintro ⟨_, _, ho, _⟩
        exact h2 ho
      rw [if_neg h1', if_pos h2, if_neg hno]
    · push_neg at h2
      by_cases h3 : _connect_one_device aliasDict ssh_only oracle d
      · rw [if_neg h1', if_neg (by push_neg; exact h2), if_pos h3,
          if_pos ⟨hc, h1.2, h2, h3⟩]
      · have hno : ¬ (d.connected = false ∧ d.name ∉ visited ∧ d.os ∈ supported ∧
            _connect_one_device aliasDict ssh_only oracle d = true) := by
          rintro ⟨_, _, _, hh⟩
          exact h3 hh
        rw [if_neg h1', if_neg (by push_neg; exact h2), if_neg h3, if_neg hno]

theorem connectStep_fail_eq (supported : List String) (aliasDict : List (String × String))
    (ssh_only : Bool) (oracle : String → String → Bool) (visited : List String)
    (acc : ConnectResult) (d : TDevice) :
    (connectStep supported aliasDict ssh_only oracle visited acc d).fail =
      if d.connected = false ∧ d.name ∉ visited ∧ d.os ∈ supported ∧
          _connect_one_device aliasDict ssh_only oracle d = false then
        acc.fail ++ [d.name]
      else acc.fail := by
  unfold connectStep
  by_cases h1 : d.connected = true ∨ d.name ∈ visited
  · have hno : ¬ (d.connected = false ∧ d.name ∉ visited ∧ d.os ∈ supported ∧
        _connect_one_device aliasDict ssh_only oracle d = false) := by
      rintro ⟨hc, hv, _⟩
      rcases h1 with h1 | h1
      · rw [h1] at hc; cases hc
      · exact hv h1
    rw [if_pos h1, if_neg hno]
  · push_neg at h1
    have hc : d.connected = false := by
      cases hcd : d.connected
      · rfl
      · exact absurd hcd h1.1
    have h1' : ¬ (d.connected = true ∨ d.name ∈ visited) := by
      rintro (h | h)
      · exact h1.1 h
      · exact h1.2 h
    by_cases h2 : d.os ∉ supported
    · have hno : ¬ (d.connected = false ∧ d.name ∉ visited ∧ d.os ∈ supported ∧
          _connect_one_device aliasDict ssh_only oracle d = false) := by
        rintro ⟨_, _, ho, _⟩
        exact h2 ho
      rw [if_neg h1', if_pos h2, if_neg hno]
    · push_neg at h2
      by_cases h3 : _connect_one_device aliasDict ssh_only oracle d
      · have hno : ¬ (d.connected = false ∧ d.name ∉ visited ∧ d.os ∈ supported ∧
            _connect_one_device aliasDict ssh_only oracle d = false) := by
          rintro ⟨_, _, _, hh⟩
          rw [h3] at hh
          cases hh
        rw [if_neg h1', if_neg (by push_neg; exact h2), if_pos h3, if_neg hno]
      · have h3' : _connect_one_device aliasDict ssh_only oracle d = false := by
          cases hcd : _connect_one_device aliasDict ssh_only oracle d
          · rfl
          · exact absurd hcd h3
        rw [if_neg h1', if_neg (by push_neg; exact h2), if_neg h3,
          if_pos ⟨hc, h1.2, h2, h3'⟩]

theorem connectStep_devices_eq (supported : List String) (aliasDict : List (String × String))
    (ssh_only : Bool) (oracle : String → String → Bool) (visited : List String)
    (acc : ConnectResult) (d : TDevice) :
    (connectStep supported aliasDict ssh_only oracle visited acc d).devices =
      acc.devices ++ [connectTransform supported aliasDict ssh_only oracle visited d] := by
  unfold connectStep connectTransform
  by_cases h1 : d.connected = true ∨ d.name ∈ visited
  · rw [if_pos h1, if_pos h1]
  · by_cases h2 : d.os ∉ supported
    · rw [if_neg h1, if_neg h1, if_pos h2, if_pos h2]
    · by_cases h3 : _connect_one_device aliasDict ssh_only oracle d
      · rw [if_neg h1, if_neg h1, if_neg h2, if_neg h2, if_pos h3, if_pos h3]
      · rw [if_neg h1, if_neg h1, if_neg h2, if_neg h2, if_neg h3, if_neg h3]

theorem foldl_connectStep_devices (supported : List String)
    (aliasDict : List (String × String)) (ssh_only : Bool)
    (oracle : String → String → Bool) (visited : List String) :
    ∀ (devices : List TDevice) (acc : ConnectResult),
      (devices.foldl (connectStep supported aliasDict ssh_only oracle visited) acc).devices =
        acc.devices ++ devices.map
          (connectTransform supported aliasDict ssh_only oracle visited) := by
  intro devices
  induction devices with
  | nil => intro acc; simp
  | cons d ds ih =>
      intro acc
      rw [List.foldl_cons, ih, List.map_cons, connectStep_devices_eq]
      simp

theorem foldl_connectStep_skip (supported : List String)
    (aliasDict : List (String × String)) (ssh_only : Bool)
    (oracle : String → String → Bool) (visited : List String) :
    ∀ (devices : List TDevice) (acc : ConnectResult) (n : String),
      (n ∈ (devices.foldl (connectStep supported aliasDict ssh_only oracle visited)
          acc).skip ↔
        n ∈ acc.skip ∨ ∃ d, d ∈ devices ∧ d.name = n ∧ d.connected = false ∧
          d.name ∉ visited ∧ d.os ∉ supported) := by
  intro devices
  induction devices with
  | nil => intro acc n; simp
  | cons d ds ih =>
      intro acc n
      rw [List.foldl_cons, ih, connectStep_skip_eq]
      by_cases hcond : d.connected = false ∧ d.name ∉ visited ∧ d.os ∉ supported
      · rw [if_pos hcond]
        constructor
        · rintro (h | ⟨d', hd', rest⟩)
          · rcases List.mem_append.mp h with h | h
            · exact Or.inl h
            · simp only [List.mem_singleton] at h
              subst h
              exact Or.inr ⟨d, List.mem_cons_self _ _, rfl, hcond.1, hcond.2.1, hcond.2.2⟩
          · exact Or.inr ⟨d', List.mem_cons_of_mem _ hd', rest⟩
        · rintro (h | ⟨d', hd', hn, hcf, hv, ho⟩)
          · exact Or.inl (List.mem_append.mpr (Or.inl h))
          · rcases List.mem_cons.mp hd' with rfl | hd'
            · subst hn
              exact Or.inl (List.mem_append.mpr (Or.inr (List.mem_singleton.mpr rfl)))
            · exact Or.inr ⟨d', hd', hn, hcf, hv, ho⟩
      · rw [if_neg hcond]
        constructor
        · rintro (h | ⟨d', hd', rest⟩)
          · exact Or.inl h
          · exact Or.inr ⟨d', List.mem_cons_of_mem _ hd', rest⟩
        · rintro (h | ⟨d', hd', hn, hcf, hv, ho⟩)
          · exact Or.inl h
          · rcases List.mem_cons.mp hd' with rfl | hd'
            · exact absurd ⟨hcf, hv, ho⟩ hcond
            · exact Or.inr ⟨d', hd', hn, hcf, hv, ho⟩

theorem foldl_connectStep_submitted (supported : List String)
    (aliasDict : List (String × String)) (ssh_only : Bool)
    (oracle : String → String → Bool) (visited : List String) :
    ∀ (devices : List TDevice) (acc : ConnectResult) (n : String),
      ((n ∈ (devices.foldl (connectStep supported aliasDict ssh_only oracle visited)
          acc).success ∨
        n ∈ (devices.foldl (connectStep supported aliasDict ssh_only oracle visited)
          acc).fail) ↔
        (n ∈ acc.success ∨ n ∈ acc.fail) ∨
        ∃ d, d ∈ devices ∧ d.name = n ∧ d.connected = false ∧
          d.name ∉ visited ∧ d.os ∈ supported) := by
  intro devices
  induction devices with
  | nil => intro acc n; simp
  | cons d ds ih =>
      intro acc n
      rw [List.foldl_cons, ih, connectStep_success_eq, connectStep_fail_eq]
      by_cases hsub : d.connected = false ∧ d.name ∉ visited ∧ d.os ∈ supported
      · by_cases hok : _connect_one_device aliasDict ssh_only oracle d
        · rw [if_pos ⟨hsub.1, hsub.2.1, hsub.2.2, hok⟩,
            if_neg (by rintro ⟨_, _, _, hf⟩; rw [hok] at hf; cases hf)]
          constructor
          · rintro (h | ⟨d', hd', rest⟩)
            · rcases h with h | h
              · rcases List.mem_append.mp h with h | h
                · exact Or.inl (Or.inl h)
                · simp only [List.mem_singleton] at h
                  subst h
                  exact Or.inr ⟨d, List.mem_cons_self _ _, rfl, hsub.1, hsub.2.1, hsub.2.2⟩
              · exact Or.inl (Or.inr h)
            · exact Or.inr ⟨d', List.mem_cons_of_mem _ hd', rest⟩
          · rintro (h | ⟨d', hd', hn, hcf, hv, ho⟩)
            · rcases h with h | h
              · exact Or.inl (Or.inl (List.mem_append.mpr (Or.inl h)))
              · exact Or.inl (Or.inr h)
            · rcases List.mem_cons.mp hd' with rfl | hd'
              · subst hn
                exact Or.inl (Or.inl (List.mem_append.mpr
                  (Or.inr (List.mem_singleton.mpr rfl))))
              · exact Or.inr ⟨d', hd', hn, hcf, hv, ho⟩
        · have hok' : _connect_one_device aliasDict ssh_only oracle d = false := by
            cases hcd : _connect_one_device aliasDict ssh_only oracle d
            · rfl
            · exact absurd hcd hok
          rw [if_neg (by rintro ⟨_, _, _, ht⟩; exact hok ht),
            if_pos ⟨hsub.1, hsub.2.1, hsub.2.2, hok'⟩]
          constructor
          · rintro (h | ⟨d', hd', rest⟩)
            · rcases h with h | h
              · exact Or.inl (Or.inl h)
              · rcases List.mem_append.mp h with h | h
                · exact Or.inl (Or.inr h)
                · simp only [List.mem_singleton] at h
                  subst h
                  exact Or.inr ⟨d, List.mem_cons_self _ _, rfl, hsub.1, hsub.2.1, hsub.2.2⟩
            · exact Or.inr ⟨d', List.mem_cons_of_mem _ hd', rest⟩
          · rintro (h | ⟨d', hd', hn, hcf, hv, ho⟩)
            · rcases h with h | h
              · exact Or.inl (Or.inl h)
              · exact Or.inl (Or.inr (List.mem_append.mpr (Or.inl h)))
            · rcases List.mem_cons.mp hd' with rfl | hd'
              · subst hn
                exact Or.inl (Or.inr (List.mem_append.mpr
                  (Or.inr (List.mem_singleton.mpr rfl))))
              · exact Or.inr ⟨d', hd', hn, hcf, hv, ho⟩
      · rw [if_neg (by rintro ⟨ha, hb, hc2, _⟩; exact hsub ⟨ha, hb, hc2⟩),
          if_neg (by rintro ⟨ha, hb, hc2, _⟩; exact hsub ⟨ha, hb, hc2⟩)]
        constructor
        · rintro (h | ⟨d', hd', rest⟩)
          · exact Or.inl h
          · exact Or.inr ⟨d', List.mem_cons_of_mem _ hd', rest⟩
        · rintro (h | ⟨d', hd', hn, hcf, hv, ho⟩)
          · exact Or.inl h
          · rcases List.mem_cons.mp hd' with rfl | hd'
            · exact absurd ⟨hcf, hv, ho⟩ hsub
            · exact Or.inr ⟨d', hd', hn, hcf, hv, ho⟩

/-! ## Behaviour of the `get_neigbor_data` fold -/

theorem gndStep_fst_mem (supported : List String)
    (acc : List String × List String) (d : TDevice) :
    d.name ∈ (gndStep supported acc d).1 := by
  unfold gndStep
  by_cases h : d.name ∈ acc.1
  · rw [if_pos h]; exact h
  · rw [if_neg h]; exact List.mem_append.mpr (Or.inr (List.mem_singleton.mpr rfl))

theorem gndStep_fst_sub (supported : List String)
    (acc : List String × List String) (d : TDevice) (n : String)
    (h : n ∈ acc.1) : n ∈ (gndStep supported acc d).1 := by
  unfold gndStep
  by_cases hm : d.name ∈ acc.1
  · rw [if_pos hm]; exact h
  · rw [if_neg hm]; exact List.mem_append.mpr (Or.inl h)

theorem foldl_gndStep_visited_mono (supported : List String) :
    ∀ (devices : List TDevice) (acc : List String × List String) (n : String),
      n ∈ acc.1 → n ∈ (devices.foldl (gndStep supported) acc).1 := by
  intro devices
  induction devices with
  | nil => intro acc n h; exact h
  | cons d ds ih =>
      intro acc n h
      rw [List.foldl_cons]
      exact ih _ n (gndStep_fst_sub supported acc d n h)

theorem foldl_gndStep_mem_visited (supported : List String) :
    ∀ (devices : List TDevice) (acc : List String × List String) (d : TDevice),
      d ∈ devices → d.name ∈ (devices.foldl (gndStep supported) acc).1 := by
  intro devices
  induction devices with
  | nil => intro acc d h; simp at h
  | cons d0 ds ih =>
      intro acc d h
      rw [List.foldl_cons]
      rcases List.mem_cons.mp h with rfl | h
      · exact foldl_gndStep_visited_mono supported ds _ d.name
          (gndStep_fst_mem supported acc d)
      · exact ih _ d h

theorem foldl_gndStep_visited_src (supported : List String) :
    ∀ (devices : List TDevice) (acc : List String × List String) (n : String),
      n ∈ (devices.foldl (gndStep supported) acc).1 →
        n ∈ acc.1 ∨ n ∈ deviceNames devices := by
  intro devices
  induction devices with
  | nil => intro acc n h; exact Or.inl h
  | cons d ds ih =>
      intro acc n h
      rw [List.foldl_cons] at h
      rcases ih _ n h with h1 | h1
      · unfold gndStep at h1
        by_cases hm : d.name ∈ acc.1
        · rw [if_pos hm] at h1
          exact Or.inl h1
        · rw [if_neg hm] at h1
          rcases List.mem_append.mp h1 with h2 | h2
          · exact Or.inl h2
          · simp only [List.mem_singleton] at h2
            subst h2
            exact Or.inr (List.mem_cons_self _ _)
      · exact Or.inr (List.mem_cons_of_mem _ h1)

theorem foldl_gndStep_visited_nodup (supported : List String) :
    ∀ (devices : List TDevice) (acc : List String × List String),
      acc.1.Nodup → (devices.foldl (gndStep supported) acc).1.Nodup := by
  intro devices
  induction devices with
  | nil => intro acc h; exact h
  | cons d ds ih =>
      intro acc h
      rw [List.foldl_cons]
      refine ih _ ?_
      unfold gndStep
      by_cases hm : d.name ∈ acc.1
      · rw [if_pos hm]; exact h
      · rw [if_neg hm]
        simp only [List.nodup_append, List.nodup_singleton]
        exact ⟨h, by trivial, by simpa using hm⟩

theorem foldl_gndStep_test_src (supported : List String) :
    ∀ (devices : List TDevice) (acc : List String × List String) (n : String),
      n ∈ (devices.foldl (gndStep supported) acc).2 →
        n ∈ acc.2 ∨ ∃ d, d ∈ devices ∧ d.name = n ∧ d.os ∈ supported ∧
          d.connected = true := by
  intro devices
  induction devices with
  | nil => intro acc n h; exact Or.inl h
  | cons d ds ih =>
      intro acc n h
      rw [List.foldl_cons] at h
      rcases ih _ n h with h1 | h1
      · unfold gndStep at h1
        by_cases hm : d.name ∈ acc.1
        · rw [if_pos hm] at h1
          exact Or.inl h1
        · rw [if_neg hm] at h1
          by_cases hq : d.os ∈ supported ∧ d.connected = true
          · rw [if_pos hq] at h1
            rcases List.mem_append.mp h1 with h2 | h2
            · exact Or.inl h2
            · simp only [List.mem_singleton] at h2
              subst h2
              exact Or.inr ⟨d, List.mem_cons_self _ _, rfl, hq.1, hq.2⟩
          · rw [if_neg hq] at h1
            exact Or.inl h1
      · obtain ⟨d', hd', rest⟩ := h1
        exact Or.inr ⟨d', List.mem_cons_of_mem _ hd', rest⟩

/-! ## Round-level facts for the discovery loop -/

theorem nodup_subset_length_le (l1 l2 : List String) (h1 : l1.Nodup)
    (hs : ∀ x ∈ l1, x ∈ l2) : l1.length ≤ l2.length := by
  have hc1 : l1.toFinset.card = l1.length := List.toFinset_card_of_nodup h1
  have hsub : l1.toFinset ⊆ l2.toFinset := by
    intro x hx
    rw [List.mem_toFinset] at hx ⊢
    exact hs x hx
  have hcard := Finset.card_le_card hsub
  have hc2 : l2.toFinset.card ≤ l2.length := l2.toFinset_card_le
  omega

theorem connectTransform_name (supported : List String)
    (aliasDict : List (String × String)) (ssh_only : Bool)
    (oracle : String → String → Bool) (visited : List String) (d : TDevice) :
    (connectTransform supported aliasDict ssh_only oracle visited d).name = d.name := by
  unfold connectTransform
  by_cases h1 : d.connected = true ∨ d.name ∈ visited
  · rw [if_pos h1]
  · rw [if_neg h1]
    by_cases h2 : d.os ∉ supported
    · rw [if_pos h2]
    · rw [if_neg h2]
      by_cases h3 : _connect_one_device aliasDict ssh_only oracle d
      · rw [if_pos h3]
      · rw [if_neg h3]

theorem connect_all_devices_devices_eq (supported : List String)
    (aliasDict : List (String × String)) (ssh_only : Bool)
    (oracle : String → String → Bool) (devices : List TDevice) (visited : List String) :
    (connect_all_devices supported aliasDict ssh_only oracle devices visited).devices =
      devices.map (connectTransform supported aliasDict ssh_only oracle visited) := by
  unfold connect_all_devices
  rw [foldl_connectStep_devices]
  rfl

theorem deviceNames_map_connectTransform (supported : List String)
    (aliasDict : List (String × String)) (ssh_only : Bool)
    (oracle : String → String → Bool) (visited : List String) (devices : List TDevice) :
    deviceNames (devices.map (connectTransform supported aliasDict ssh_only oracle visited)) =
      deviceNames devices := by
  unfold deviceNames
  rw [List.map_map]
  apply List.map_congr_left
  intro d _
  exact connectTransform_name supported aliasDict ssh_only oracle visited d

/-- Well-formedness of a loop state: device names are unique and drawn
from the finite network universe; the visited set is duplicate-free and
only mentions known devices. -/
def LoopStateOk (univ : List TDevice) (st : LoopState) : Prop :=
  (deviceNames st.devices).Nodup ∧
  (∀ n ∈ deviceNames st.devices, n ∈ deviceNames univ) ∧
  st.visited.Nodup ∧
  (∀ n ∈ st.visited, n ∈ deviceNames st.devices)

/-- Well-formedness of the loop environment: a round's newly discovered
devices carry fresh, duplicate-free names from the universe. -/
def LoopEnvOk (env : LoopEnv) : Prop :=
  ∀ devs vis, (deviceNames (env.discover devs vis)).Nodup ∧
    ∀ n ∈ deviceNames (env.discover devs vis),
      n ∈ deviceNames env.univ ∧ n ∉ deviceNames devs

theorem mem_deviceNames {devices : List TDevice} {n : String} :
    n ∈ deviceNames devices ↔ ∃ d, d ∈ devices ∧ d.name = n := by
  unfold deviceNames
  rw [List.mem_map]

theorem discoveryRound_core_facts (supported : List String)
    (aliasDict : List (String × String)) (ssh_only : Bool)
    (env : LoopEnv) (st : LoopState)
    (hok : LoopStateOk env.univ st) (henv : LoopEnvOk env) :
    LoopStateOk env.univ (discoveryRound supported aliasDict ssh_only env st) ∧
    (discoveryRound supported aliasDict ssh_only env st).visited.length =
      st.devices.length ∧
    st.devices.length ≤
      (discoveryRound supported aliasDict ssh_only env st).devices.length ∧
    ((discoveryRound supported aliasDict ssh_only env st).devices.length >
        (discoveryRound supported aliasDict ssh_only env st).visited.length →
      st.devices.length <
        (discoveryRound supported aliasDict ssh_only env st).devices.length) ∧
    (∀ n ∈ st.visited,
      n ∈ (discoveryRound supported aliasDict ssh_only env st).visited) ∧
    st.visited.length ≤
      (discoveryRound supported aliasDict ssh_only env st).visited.length := by
  obtain ⟨hnd, hdu, hvn, hvs⟩ := hok
  set cr := connect_all_devices supported aliasDict ssh_only env.oracle
    st.devices st.visited with hcr
  set vis' := (get_neigbor_data supported cr.devices st.visited).1 with hvis'
  set newDevs := env.discover cr.devices vis' with hnew
  have hround : discoveryRound supported aliasDict ssh_only env st =
      { devices := cr.devices ++ newDevs, visited := vis' } := rfl
  have hcrnames : deviceNames cr.devices = deviceNames st.devices := by
    rw [hcr, connect_all_devices_devices_eq, deviceNames_map_connectTransform]
  -- every current device name is visited afterwards
  have hall : ∀ n ∈ deviceNames st.devices, n ∈ vis' := by
    intro n hn
    rw [← hcrnames] at hn
    obtain ⟨d, hd, rfl⟩ := mem_deviceNames.mp hn
    exact foldl_gndStep_mem_visited supported cr.devices (st.visited, []) d hd
  -- the new visited set only mentions current device names
  have hsrc : ∀ n ∈ vis', n ∈ deviceNames st.devices := by
    intro n hn
    rcases foldl_gndStep_visited_src supported cr.devices (st.visited, []) n hn with h | h
    · exact hvs n h
    · rw [hcrnames] at h
      exact h
  have hvis'nodup : vis'.Nodup :=
    foldl_gndStep_visited_nodup supported cr.devices (st.visited, []) hvn
  have hnames_nodup : (deviceNames st.devices).Nodup := hnd
  have hlen1 : (deviceNames st.devices).length ≤ vis'.length :=
    nodup_subset_length_le _ _ hnames_nodup hall
  have hlen2 : vis'.length ≤ (deviceNames st.devices).length :=
    nodup_subset_length_le _ _ hvis'nodup hsrc
  have hdevlen : (deviceNames st.devices).length = st.devices.length := by
    unfold deviceNames
    exact List.length_map _ _
  have hvislen : vis'.length = st.devices.length := by omega
  have hmono : ∀ n ∈ st.visited, n ∈ vis' :=
    fun n hn => foldl_gndStep_visited_mono supported cr.devices (st.visited, []) n hn
  have hcrlen : cr.devices.length = st.devices.length := by
    rw [hcr, connect_all_devices_devices_eq]
    exact List.length_map _ _
  obtain ⟨hnewnodup, hnewfresh⟩ := henv cr.devices vis'
  constructor
  · -- LoopStateOk is preserved
    refine ⟨?_, ?_, ?_, ?_⟩
    · rw [hround]
      show (deviceNames (cr.devices ++ newDevs)).Nodup
      unfold deviceNames
      rw [List.map_append, List.nodup_append]
      refine ⟨by rw [show List.map (·.name) cr.devices = deviceNames cr.devices from rfl,
          hcrnames]; exact hnd,
        hnewnodup, ?_⟩
      intro a ha hb
      have ha' : a ∈ deviceNames cr.devices := ha
      have hb' : a ∈ deviceNames newDevs := hb
      exact (hnewfresh a hb').2 ha'
    · rw [hround]
      intro n hn
      have : n ∈ deviceNames cr.devices ∨ n ∈ deviceNames newDevs := by
        unfold deviceNames at hn ⊢
        rw [List.map_append, List.mem_append] at hn
        exact hn
      rcases this with h | h
      · rw [hcrnames] at h
        exact hdu n h
      · exact (hnewfresh n h).1
    · rw [hround]
      exact hvis'nodup
    · rw [hround]
      intro n hn
      have := hsrc n hn
      rw [← hcrnames] at this
      unfold deviceNames at this ⊢
      rw [List.map_append, List.mem_append]
      exact Or.inl this
  refine ⟨by rw [hround]; exact hvislen, ?_, ?_, ?_, ?_⟩
  · rw [hround]
    show st.devices.length ≤ (cr.devices ++ newDevs).length
    rw [List.length_append]
    omega
  · rw [hround]
    show (cr.devices ++ newDevs).length > vis'.length →
      st.devices.length < (cr.devices ++ newDevs).length
    rw [List.length_append]
    omega
  · rw [hround]
    exact hmono
  · rw [hround]
    show st.visited.length ≤ vis'.length
    have : st.visited.length ≤ st.devices.length := by
      have := nodup_subset_length_le st.visited (deviceNames st.devices) hvn hvs
      omega
    omega

theorem nodup_subset_full (l1 l2 : List String) (h1 : l1.Nodup)
    (hs : ∀ x ∈ l1, x ∈ l2) (hl : l2.length ≤ l1.length) :
    ∀ x ∈ l2, x ∈ l1 := by
  have hsub : l1.toFinset ⊆ l2.toFinset := by
    intro x hx
    rw [List.mem_toFinset] at hx ⊢
    exact hs x hx
  have hc1 : l1.toFinset.card = l1.length := List.toFinset_card_of_nodup h1
  have hc2 : l2.toFinset.card ≤ l2.length := l2.toFinset_card_le
  have heq : l1.toFinset = l2.toFinset :=
    Finset.eq_of_subset_of_card_le hsub (by omega)
  intro x hx
  have : x ∈ l2.toFinset := List.mem_toFinset.mpr hx
  rw [← heq] at this
  exact List.mem_toFinset.mp this

theorem generateLoop_of_not_cond (supported : List String)
    (aliasDict : List (String × String)) (ssh_only only_links : Bool)
    (env : LoopEnv) (st : LoopState)
    (h : ¬ st.devices.length > st.visited.length) :
    ∀ fuel, generateLoop supported aliasDict ssh_only only_links env fuel st =
      some (st, 0) := by
  intro fuel
  cases fuel with
  | zero => unfold generateLoop; rw [if_neg h]
  | succ n => unfold generateLoop; rw [if_neg h]

theorem generateLoop_some (supported : List String)
    (aliasDict : List (String × String)) (ssh_only : Bool)
    (env : LoopEnv) (henv : LoopEnvOk env) :
    ∀ (fuel : Nat) (st : LoopState), LoopStateOk env.univ st →
      (deviceNames env.univ).length + 1 ≤ fuel + st.devices.length →
      ∃ fin n, generateLoop supported aliasDict ssh_only false env fuel st =
          some (fin, n) ∧
        ¬ fin.devices.length > fin.visited.length ∧ LoopStateOk env.univ fin := by
  intro fuel
  induction fuel with
  | zero =>
      intro st hok hge
      exfalso
      have hle : (deviceNames st.devices).length ≤ (deviceNames env.univ).length :=
        nodup_subset_length_le _ _ hok.1 hok.2.1
      have hlen : (deviceNames st.devices).length = st.devices.length :=
        List.length_map _ _
      omega
  | succ fuel ih =>
      intro st hok hge
      by_cases hcond : st.devices.length > st.visited.length
      · obtain ⟨hok', hvl, hdl, himp, hmono, hvmono⟩ :=
          discoveryRound_core_facts supported aliasDict ssh_only env st hok henv
        by_cases hcond' :
          (discoveryRound supported aliasDict ssh_only env st).devices.length >
            (discoveryRound supported aliasDict ssh_only env st).visited.length
        · have hgrow := himp hcond'
          have hge' : (deviceNames env.univ).length + 1 ≤
              fuel + (discoveryRound supported aliasDict ssh_only env st).devices.length := by
            omega
          obtain ⟨fin, n, heq, hfin, hfinok⟩ := ih _ hok' hge'
          refine ⟨fin, n + 1, ?_, hfin, hfinok⟩
          unfold generateLoop
          rw [if_pos hcond]
          simp only [Bool.false_eq_true, if_false]
          rw [heq]
        · refine ⟨_, 1, ?_, hcond', hok'⟩
          unfold generateLoop
          rw [if_pos hcond]
          simp only [Bool.false_eq_true, if_false]
          rw [generateLoop_of_not_cond supported aliasDict ssh_only false env _ hcond' fuel]
      · refine ⟨st, 0, ?_, hcond, hok⟩
        unfold generateLoop
        rw [if_neg hcond]

/-! ## Claim C2: the discovery loop guard and convergence -/

/-- C2: the loop of `_generate` runs another round exactly when the
device count exceeds the visited count — it returns immediately with
zero rounds when the guard fails and runs at least one round when it
holds; in only-links mode it performs exactly one round; the visited
count is monotonically non-decreasing across a round and bounded by the
device count; and for a finite universe of devices, sufficient fuel
always reaches a final state in which every known device is visited. -/
theorem C2_generate_loop_convergence (supported : List String)
    (aliasDict : List (String × String)) (ssh_only : Bool)
    (env : LoopEnv) (st : LoopState) (fuel : Nat)
    (henv : LoopEnvOk env) (hok : LoopStateOk env.univ st) :
    (¬ st.devices.length > st.visited.length →
      ∀ (only_links : Bool) (f : Nat),
        generateLoop supported aliasDict ssh_only only_links env f st = some (st, 0)) ∧
    (st.devices.length > st.visited.length →
      ∀ (only_links : Bool) (fin : LoopState) (n : Nat),
        generateLoop supported aliasDict ssh_only only_links env (fuel + 1) st =
          some (fin, n) → 1 ≤ n) ∧
    (st.devices.length > st.visited.length →
      generateLoop supported aliasDict ssh_only true env (fuel + 1) st =
        some (discoveryRound supported aliasDict ssh_only env st, 1)) ∧
    (st.visited.length ≤
        (discoveryRound supported aliasDict ssh_only env st).visited.length ∧
      st.visited.length ≤ st.devices.length) ∧
    ((deviceNames env.univ).length + 1 ≤ fuel →
      ∃ fin n, generateLoop supported aliasDict ssh_only false env fuel st =
          some (fin, n) ∧ ∀ d ∈ fin.devices, d.name ∈ fin.visited) := by
  obtain ⟨hnd, hdu, hvn, hvs⟩ := hok
  refine ⟨?_, ?_, ?_, ?_, ?_⟩
  · intro hcond only_links f
    exact generateLoop_of_not_cond supported aliasDict ssh_only only_links env st hcond f
  · intro hcond only_links fin n heq
    unfold generateLoop at heq
    rw [if_pos hcond] at heq
    cases honly : only_links with
    | true =>
        rw [honly] at heq
        simp only [if_true] at heq
        cases heq
        omega
    | false =>
        rw [honly] at heq
        simp only [Bool.false_eq_true, if_false] at heq
        cases hrec : generateLoop supported aliasDict ssh_only false env fuel
            (discoveryRound supported aliasDict ssh_only env st) with
        | none => rw [hrec] at heq; cases heq
        | some p =>
            rw [hrec] at heq
            cases heq
            omega
  · intro hcond
    unfold generateLoop
    rw [if_pos hcond]
    simp only [if_true]
  · constructor
    · exact (discoveryRound_core_facts supported aliasDict ssh_only env st
        ⟨hnd, hdu, hvn, hvs⟩ henv).2.2.2.2.2
    · have := nodup_subset_length_le st.visited (deviceNames st.devices) hvn hvs
      have hlen : (deviceNames st.devices).length = st.devices.length :=
        List.length_map _ _
      omega
  · intro hfuel
    obtain ⟨fin, n, heq, hfin, hfinok⟩ :=
      generateLoop_some supported aliasDict ssh_only env henv fuel st
        ⟨hnd, hdu, hvn, hvs⟩ (by omega)
    refine ⟨fin, n, heq, ?_⟩
    intro d hd
    have hnames : ∀ x ∈ deviceNames fin.devices, x ∈ fin.visited := by
      apply nodup_subset_full fin.visited (deviceNames fin.devices)
        hfinok.2.2.1 hfinok.2.2.2
      have hlen : (deviceNames fin.devices).length = fin.devices.length :=
        List.length_map _ _
      omega
    exact hnames d.name (mem_deviceNames.mpr ⟨d, hd, rfl⟩)

/-- Concrete device for the loop witnesses. -/
def devW : TDevice := { name := "W1", os := "ios", connected := false }

/-- Concrete loop environment for the loop witnesses: a one-device
universe, failing connections, no discovery. -/
def envW : LoopEnv :=
  { univ := [devW], oracle := fun _ _ => false, discover := fun _ _ => [] }

/-- Concrete seed state for the loop witnesses. -/
def stW : LoopState := { devices := [devW], visited := [] }

theorem envW_ok : LoopEnvOk envW := by
  intro devs vis
  constructor
  · simp [envW, deviceNames]
  · intro n hn
    simp [envW, deviceNames] at hn

theorem stW_ok : LoopStateOk envW.univ stW := by
  refine ⟨?_, ?_, ?_, ?_⟩ <;> simp [stW, envW, deviceNames]

/-- Witness for C2 at the concrete one-device environment: the loop
terminates with every known device visited. -/
theorem C2_witness :
    ∃ fin n, generateLoop ["ios"] [] false false envW 2 stW = some (fin, n) ∧
      ∀ d ∈ fin.devices, d.name ∈ fin.visited := by
  have h := (C2_generate_loop_convergence ["ios"] [] false envW stW 2
    envW_ok stW_ok).2.2.2.2
  exact h (by simp [envW, devW, deviceNames])

/-! ## Claim C9: `get_neigbor_data` visits every device -/

/-- C9: after a `get_neigbor_data` call every device of the testbed is
in the visited set — connected or not, supported OS or not; hence, after
a round, the loop guard (device count exceeds visited count) can only
hold if the round strictly grew the device list, i.e. discovered new
devices. -/
theorem C9_get_neigbor_data_visits_all (supported : List String)
    (aliasDict : List (String × String)) (ssh_only : Bool)
    (env : LoopEnv) (st : LoopState)
    (devices : List TDevice) (visited : List String)
    (hok : LoopStateOk env.univ st) (henv : LoopEnvOk env) :
    (∀ d ∈ devices, d.name ∈ (get_neigbor_data supported devices visited).1) ∧
    ((discoveryRound supported aliasDict ssh_only env st).devices.length >
        (discoveryRound supported aliasDict ssh_only env st).visited.length →
      st.devices.length <
        (discoveryRound supported aliasDict ssh_only env st).devices.length) := by
  constructor
  · intro d hd
    exact foldl_gndStep_mem_visited supported devices (visited, []) d hd
  · exact (discoveryRound_core_facts supported aliasDict ssh_only env st hok henv).2.2.2.1

/-- Concrete unconnected, unsupported-OS device for the C9 witness. -/
def devW9 : TDevice := { name := "W9", os := "linux", connected := false }

/-- Witness for C9: even an unconnected device with unsupported OS is
visited after `get_neigbor_data`. -/
theorem C9_witness :
    devW9.name ∈ (get_neigbor_data ["ios"] [devW9] []).1 := by
  have h := (C9_get_neigbor_data_visits_all ["ios"] [] false envW stW [devW9] []
    stW_ok envW_ok).1
  exact h devW9 (List.mem_singleton.mpr rfl)

/-! ## Claim C3: skip classification of unsupported-OS devices -/

/-- Concrete unsupported-OS device with a declared preferred alias. -/
def devL : TDevice :=
  { name := "L1", os := "linux", connected := false,
    connections := [("cli", { protocol := some "ssh", ip := some "10.9.9.9" })] }

/-- Counterexample to C3 as stated: even though a preferred alias is
explicitly declared for the unsupported-OS device (and names an existing
connection), `connect_all_devices` skips it and makes no connection
attempt — the device is in `skip` and in neither `success` nor `fail`,
with an oracle under which any attempt would have succeeded. -/
theorem C3_counterexample :
    "L1" ∈ (connect_all_devices SUPPORTED_OS [("L1", "cli")] false
        (fun _ _ => true) [devL] []).skip ∧
    "L1" ∉ (connect_all_devices SUPPORTED_OS [("L1", "cli")] false
        (fun _ _ => true) [devL] []).success ∧
    "L1" ∉ (connect_all_devices SUPPORTED_OS [("L1", "cli")] false
        (fun _ _ => true) [devL] []).fail := by
  refine ⟨?_, ?_, ?_⟩ <;> decide

/-- C3 (amended): a not-yet-visited, unconnected device whose OS is not
in the supported set is always classified `skip` by
`connect_all_devices` and is never submitted for a connection attempt,
for every alias dictionary — a declared preferred alias makes no
difference, since the alias is only consulted inside
`_connect_one_device`, which is never invoked for skipped devices. -/
theorem C3_unsupported_always_skipped (supported : List String)
    (aliasDict : List (String × String)) (ssh_only : Bool)
    (oracle : String → String → Bool) (devices : List TDevice)
    (visited : List String) (d : TDevice)
    (hd : d ∈ devices) (hc : d.connected = false) (hv : d.name ∉ visited)
    (ho : d.os ∉ supported) (hnodup : (deviceNames devices).Nodup) :
    d.name ∈ (connect_all_devices supported aliasDict ssh_only oracle
        devices visited).skip ∧
    d.name ∉ (connect_all_devices supported aliasDict ssh_only oracle
        devices visited).success ∧
    d.name ∉ (connect_all_devices supported aliasDict ssh_only oracle
        devices visited).fail := by
  have hskip : d.name ∈ (connect_all_devices supported aliasDict ssh_only oracle
      devices visited).skip := by
    unfold connect_all_devices
    exact (foldl_connectStep_skip supported aliasDict ssh_only oracle visited
      devices _ d.name).mpr (Or.inr ⟨d, hd, rfl, hc, hv, ho⟩)
  have hnosub : ¬ (d.name ∈ (connect_all_devices supported aliasDict ssh_only oracle
      devices visited).success ∨
    d.name ∈ (connect_all_devices supported aliasDict ssh_only oracle
      devices visited).fail) := by
    intro hmem
    unfold connect_all_devices at hmem
    rcases (foldl_connectStep_submitted supported aliasDict ssh_only oracle visited
        devices _ d.name).mp hmem with h | ⟨d', hd', hn, _, _, ho'⟩
    · simp at h
    · have : d' = d := List.inj_on_of_nodup_map hnodup hd' hd hn
      subst this
      exact ho ho'
  exact ⟨hskip, fun h => hnosub (Or.inl h), fun h => hnosub (Or.inr h)⟩

/-- Witness for the amended C3 theorem at the concrete aliased device. -/
theorem C3_witness :
    "L1" ∈ (connect_all_devices SUPPORTED_OS [("L1", "cli")] true
        (fun _ _ => true) [devL] []).skip ∧
    "L1" ∉ (connect_all_devices SUPPORTED_OS [("L1", "cli")] true
        (fun _ _ => true) [devL] []).success ∧
    "L1" ∉ (connect_all_devices SUPPORTED_OS [("L1", "cli")] true
        (fun _ _ => true) [devL] []).fail := by
  have h := C3_unsupported_always_skipped SUPPORTED_OS [("L1", "cli")] true
    (fun _ _ => true) [devL] [] devL (List.mem_singleton.mpr rfl)
    rfl (by decide) (by decide) (by decide)
  exact h

/-! ## Claim C1: failed-connection devices and the visited set -/

/-- Concrete environment for the C1 counterexample: every connection
attempt fails and no new devices are discovered. -/
def envA : LoopEnv :=
  { univ := [{ name := "A1", os := "ios" }],
    oracle := fun _ _ => false, discover := fun _ _ => [] }

/-- Concrete supported, unconnected device for the C1 counterexample. -/
def devA : TDevice :=
  { name := "A1", os := "ios",
    connections := [("cli", { protocol := some "ssh", ip := some "10.0.0.1" })] }

/-- Concrete seed state for the C1 counterexample: one supported,
unconnected device. -/
def stA : LoopState := { devices := [devA], visited := [] }

/-- Counterexample to C1 as stated: device `A1` fails its connection
attempt in round one (it lands in `fail`), yet after that same round it
IS in the visited set — not "permanently not visited" — and in round two
it is not retried: `connect_all_devices` puts it in none of its result
sets, because visited devices are passed over before any classification. -/
theorem C1_counterexample :
    "A1" ∈ (connect_all_devices SUPPORTED_OS [] false envA.oracle
        stA.devices stA.visited).fail ∧
    "A1" ∈ (discoveryRound SUPPORTED_OS [] false envA stA).visited ∧
    "A1" ∉ (connect_all_devices SUPPORTED_OS [] false envA.oracle
        (discoveryRound SUPPORTED_OS [] false envA stA).devices
        (discoveryRound SUPPORTED_OS [] false envA stA).visited).success ∧
    "A1" ∉ (connect_all_devices SUPPORTED_OS [] false envA.oracle
        (discoveryRound SUPPORTED_OS [] false envA stA).devices
        (discoveryRound SUPPORTED_OS [] false envA stA).visited).fail ∧
    "A1" ∉ (connect_all_devices SUPPORTED_OS [] false envA.oracle
        (discoveryRound SUPPORTED_OS [] false envA stA).devices
        (discoveryRound SUPPORTED_OS [] false envA stA).visited).skip := by
  refine ⟨?_, ?_, ?_, ?_, ?_⟩ <;> decide

/-- C1 (amended): a device whose connection attempts all fail is marked
visited by that same round's `get_neigbor_data` pass (every unvisited
device is, connected or not), it is excluded from neighbor collection
(not queued for cdp/lldp), and once its name is in the visited set,
`connect_all_devices` never attempts (or even classifies) it again in
any later round. -/
theorem C1_failed_device_visited_not_retried (supported : List String)
    (aliasDict : List (String × String)) (ssh_only : Bool)
    (oracle : String → String → Bool) (devices : List TDevice)
    (visited : List String) (d : TDevice)
    (hd : d ∈ devices) (hc : d.connected = false)
    (hnodup : (deviceNames devices).Nodup) :
    d.name ∈ (get_neigbor_data supported devices visited).1 ∧
    d.name ∉ (get_neigbor_data supported devices visited).2 ∧
    (∀ (devices' : List TDevice) (visited' : List String),
      d.name ∈ visited' →
        d.name ∉ (connect_all_devices supported aliasDict ssh_only oracle
            devices' visited').success ∧
        d.name ∉ (connect_all_devices supported aliasDict ssh_only oracle
            devices' visited').fail ∧
        d.name ∉ (connect_all_devices supported aliasDict ssh_only oracle
            devices' visited').skip) := by
  refine ⟨foldl_gndStep_mem_visited supported devices (visited, []) d hd, ?_, ?_⟩
  · intro hmem
    rcases foldl_gndStep_test_src supported devices (visited, []) d.name hmem with
      h | ⟨d', hd', hn, _, hconn⟩
    · simp at h
    · have : d' = d := List.inj_on_of_nodup_map hnodup hd' hd hn
      subst this
      rw [hc] at hconn
      cases hconn
  · intro devices' visited' hvis
    refine ⟨?_, ?_, ?_⟩
    · intro hmem
      rcases (foldl_connectStep_submitted supported aliasDict ssh_only oracle visited'
          devices' _ d.name).mp (Or.inl hmem) with h | ⟨d', _, hn, _, hv', _⟩
      · simp at h
      · rw [hn] at hv'
        exact hv' hvis
    · intro hmem
      rcases (foldl_connectStep_submitted supported aliasDict ssh_only oracle visited'
          devices' _ d.name).mp (Or.inr hmem) with h | ⟨d', _, hn, _, hv', _⟩
      · simp at h
      · rw [hn] at hv'
        exact hv' hvis
    · intro hmem
      rcases (foldl_connectStep_skip supported aliasDict ssh_only oracle visited'
          devices' _ d.name).mp hmem with h | ⟨d', _, hn, _, hv', _⟩
      · simp at h
      · rw [hn] at hv'
        exact hv' hvis

/-- Witness for the amended C1 theorem at a concrete failed device. -/
theorem C1_witness :
    "A1" ∈ (get_neigbor_data SUPPORTED_OS stA.devices []).1 ∧
    "A1" ∉ (get_neigbor_data SUPPORTED_OS stA.devices []).2 ∧
    "A1" ∉ (connect_all_devices SUPPORTED_OS [] false envA.oracle
        stA.devices ["A1"]).success := by
  have h := C1_failed_device_visited_not_retried SUPPORTED_OS [] false envA.oracle
    stA.devices [] devA (by decide) (by decide) (by decide)
  refine ⟨?_, ?_, ?_⟩
  · exact h.1
  · exact h.2.1
  · exact (h.2.2 stA.devices ["A1"] (by decide)).1

/-! ## Association-list lemmas for the C8 fixed point -/

theorem mem_keys_of_lookupA {α : Type} (l : List (String × α)) (k : String) (v : α)
    (h : lookupA l k = some v) : k ∈ keysOf l := by
  induction l with
  | nil => simp at h
  | cons p rest ih =>
      obtain ⟨k1, v1⟩ := p
      by_cases hp : k1 = k
      · subst hp
        exact List.mem_cons_self _ _
      · simp only [lookupA_cons, if_neg hp] at h
        exact List.mem_cons_of_mem _ (ih h)

theorem mem_setKey_cases {α : Type} (l : List (String × α)) (k k' : String) (v v' : α)
    (h : (k', v') ∈ setKey l k v) : (k' = k ∧ v' = v) ∨ (k', v') ∈ l := by
  induction l with
  | nil =>
      simp only [setKey_nil, List.mem_singleton] at h
      rw [Prod.mk.injEq] at h
      exact Or.inl h
  | cons p rest ih =>
      obtain ⟨k1, v1⟩ := p
      by_cases hp : k1 = k
      · subst hp
        rw [setKey_cons, if_pos rfl] at h
        rcases List.mem_cons.mp h with h1 | h1
        · rw [Prod.mk.injEq] at h1
          exact Or.inl h1
        · exact Or.inr (List.mem_cons_of_mem _ h1)
      · rw [setKey_cons, if_neg hp] at h
        rcases List.mem_cons.mp h with h1 | h1
        · exact Or.inr (h1 ▸ List.mem_cons_self _ _)
        · rcases ih h1 with h2 | h2
          · exact Or.inl h2
          · exact Or.inr (List.mem_cons_of_mem _ h2)

theorem updateAll_eq_self {α : Type} (l m : List (String × α))
    (h : ∀ p ∈ m, lookupA l p.1 = some p.2) : updateAll l m = l := by
  induction m with
  | nil => rfl
  | cons p m' ih =>
      unfold updateAll
      rw [List.foldl_cons, setKey_eq_of_lookup l p.1 p.2 (h p (List.mem_cons_self _ _))]
      exact ih (fun q hq => h q (List.mem_cons_of_mem _ hq))

theorem lookupA_updateAll_not_mem {α : Type} (m : List (String × α)) :
    ∀ (l : List (String × α)) (k : String), k ∉ keysOf m →
      lookupA (updateAll l m) k = lookupA l k := by
  induction m with
  | nil => intro l k _; rfl
  | cons p m' ih =>
      intro l k hk
      have hk1 : k ≠ p.1 := by
        intro he
        exact hk (he ▸ List.mem_cons_self _ _)
      have hk2 : k ∉ keysOf m' := by
        intro he
        exact hk (List.mem_cons_of_mem _ he)
      unfold updateAll
      rw [List.foldl_cons]
      have := ih (setKey l p.1 p.2) k hk2
      unfold updateAll at this
      rw [this, lookupA_setKey_ne l p.1 k p.2 hk1]

theorem lookupA_updateAll_of_mem {α : Type} (m : List (String × α)) :
    ∀ (l : List (String × α)) (k : String) (v : α), NodupKeys m → (k, v) ∈ m →
      lookupA (updateAll l m) k = some v := by
  induction m with
  | nil => intro l k v _ h; simp at h
  | cons p m' ih =>
      intro l k v hm h
      obtain ⟨k1, v1⟩ := p
      unfold NodupKeys keysOf at hm
      simp only [List.map_cons, List.nodup_cons] at hm
      unfold updateAll
      rw [List.foldl_cons]
      rcases List.mem_cons.mp h with h1 | h1
      · rw [Prod.mk.injEq] at h1
        obtain ⟨rfl, rfl⟩ := h1
        have hnm : k ∉ keysOf m' := hm.1
        have := lookupA_updateAll_not_mem m' (setKey l k v) k hnm
        unfold updateAll at this
        rw [this, lookupA_setKey_self]
      · exact ih (setKey l k1 v1) k v hm.2 h1

theorem isSome_lookupA_updateAll {α : Type} (m : List (String × α)) :
    ∀ (l : List (String × α)) (k : String),
      (lookupA l k).isSome → (lookupA (updateAll l m) k).isSome := by
  induction m with
  | nil => intro l k h; exact h
  | cons p m' ih =>
      intro l k h
      unfold updateAll
      rw [List.foldl_cons]
      apply ih
      by_cases hk : k = p.1
      · subst hk
        rw [lookupA_setKey_self]
        rfl
      · rw [lookupA_setKey_ne l p.1 k p.2 hk]
        exact h

theorem nodupKeys_mkIfaceDict (d : TDevice) : NodupKeys (mkIfaceDict d) := by
  unfold mkIfaceDict
  generalize hinit : ([] : List (String × IfaceEntry)) = init
  have hninit : NodupKeys init := by
    rw [← hinit]
    simp [NodupKeys, keysOf]
  clear hinit
  induction d.interfaces generalizing init with
  | nil => exact hninit
  | cons i rest ih =>
      rw [List.foldl_cons]
      exact ih _ (nodupKeys_setKey _ _ _ hninit)

theorem cydTopo_entries (tb : Testbed) :
    NodupKeys (cydTopo tb) ∧
    ∀ p ∈ cydTopo tb, p.2.interfaces ≠ [] ∧ NodupKeys p.2.interfaces := by
  unfold cydTopo
  generalize hinit : ([] : List (String × TopoDevEntry)) = init
  have hninit : NodupKeys init ∧
      ∀ p ∈ init, p.2.interfaces ≠ [] ∧ NodupKeys p.2.interfaces := by
    rw [← hinit]
    exact ⟨by simp [NodupKeys, keysOf], by simp⟩
  clear hinit
  induction tb.devices generalizing init with
  | nil => exact hninit
  | cons d rest ih =>
      rw [List.foldl_cons]
      by_cases hne : mkIfaceDict d ≠ []
      · rw [if_pos hne]
        refine ih _ ⟨nodupKeys_setKey _ _ _ hninit.1, ?_⟩
        intro p hp
        obtain ⟨pk, pv⟩ := p
        rcases mem_setKey_cases _ _ _ _ _ hp with ⟨_, hv⟩ | hmem
        · subst hv
          exact ⟨hne, nodupKeys_mkIfaceDict d⟩
        · exact hninit.2 _ hmem
      · rw [if_neg hne]
        exact ih _ hninit

/-! ## Merge and devices-pass lemmas for C8 -/

theorem lookupA_mergeTopoEntry_ne (T : List (String × TopoDevEntry))
    (p : String × TopoDevEntry) (k : String) (h : k ≠ p.1) :
    lookupA (mergeTopoEntry T p) k = lookupA T k := by
  unfold mergeTopoEntry
  cases hl : lookupA T p.1 with
  | none => rw [lookupA_setKey_ne _ _ _ _ h]
  | some old =>
      dsimp only
      by_cases hne : p.2.interfaces ≠ []
      · rw [if_pos hne, lookupA_setKey_ne _ _ _ _ h]
      · rw [if_neg hne]

theorem lookupA_foldl_mergeTopoEntry_not_mem (topo : List (String × TopoDevEntry)) :
    ∀ (T : List (String × TopoDevEntry)) (k : String), k ∉ keysOf topo →
      lookupA (topo.foldl mergeTopoEntry T) k = lookupA T k := by
  induction topo with
  | nil => intro T k _; rfl
  | cons p rest ih =>
      intro T k hk
      have hk1 : k ≠ p.1 := by
        intro he
        exact hk (he ▸ List.mem_cons_self _ _)
      have hk2 : k ∉ keysOf rest := by
        intro he
        exact hk (List.mem_cons_of_mem _ he)
      rw [List.foldl_cons, ih _ k hk2, lookupA_mergeTopoEntry_ne T p k hk1]

/-- The topology dictionary `T` absorbs `topo`: each entry of `topo` is
present in `T` with at least its interface bindings. -/
def TopoAbsorbs (T topo : List (String × TopoDevEntry)) : Prop :=
  ∀ p ∈ topo, ∃ e, lookupA T p.1 = some e ∧
    ∀ q ∈ p.2.interfaces, lookupA e.interfaces q.1 = some q.2

theorem mergeTopoEntry_self_absorbs (T : List (String × TopoDevEntry))
    (p : String × TopoDevEntry) (hifs : NodupKeys p.2.interfaces) :
    ∃ e, lookupA (mergeTopoEntry T p) p.1 = some e ∧
      ∀ q ∈ p.2.interfaces, lookupA e.interfaces q.1 = some q.2 := by
  unfold mergeTopoEntry
  cases hl : lookupA T p.1 with
  | none =>
      refine ⟨p.2, by rw [lookupA_setKey_self], ?_⟩
      intro q hq
      exact lookupA_of_mem_nodup _ _ _ hifs (by obtain ⟨a, b⟩ := q; exact hq)
  | some old =>
      dsimp only
      by_cases hne : p.2.interfaces ≠ []
      · rw [if_pos hne]
        refine ⟨⟨updateAll old.interfaces p.2.interfaces⟩, by rw [lookupA_setKey_self], ?_⟩
        intro q hq
        exact lookupA_updateAll_of_mem _ _ _ _ hifs (by obtain ⟨a, b⟩ := q; exact hq)
      · rw [if_neg hne]
        push_neg at hne
        refine ⟨old, hl, ?_⟩
        intro q hq
        rw [hne] at hq
        simp at hq

theorem mergeTopo_absorbs (topo : List (String × TopoDevEntry))
    (htopo : NodupKeys topo)
    (hifs : ∀ p ∈ topo, NodupKeys p.2.interfaces) :
    ∀ T, TopoAbsorbs (topo.foldl mergeTopoEntry T) topo := by
  induction topo with
  | nil => intro T p hp; simp at hp
  | cons p0 rest ih =>
      unfold NodupKeys keysOf at htopo
      simp only [List.map_cons, List.nodup_cons] at htopo
      intro T q hq
      rw [List.foldl_cons]
      rcases List.mem_cons.mp hq with rfl | hq
      · obtain ⟨e, he, hprop⟩ :=
          mergeTopoEntry_self_absorbs T q (hifs q (List.mem_cons_self _ _))
        refine ⟨e, ?_, hprop⟩
        rw [lookupA_foldl_mergeTopoEntry_not_mem rest _ q.1 htopo.1, he]
      · exact ih htopo.2 (fun p hp => hifs p (List.mem_cons_of_mem _ hp))
          (mergeTopoEntry T p0) q hq

theorem mergeTopo_id (topo : List (String × TopoDevEntry))
    (hne : ∀ p ∈ topo, p.2.interfaces ≠ []) :
    ∀ T, TopoAbsorbs T topo → topo.foldl mergeTopoEntry T = T := by
  induction topo with
  | nil => intro T _; rfl
  | cons p rest ih =>
      intro T habs
      obtain ⟨e, he, hprop⟩ := habs p (List.mem_cons_self _ _)
      have hstep : mergeTopoEntry T p = T := by
        unfold mergeTopoEntry
        rw [he]
        dsimp only
        rw [if_pos (hne p (List.mem_cons_self _ _)), updateAll_eq_self _ _ hprop]
        exact setKey_eq_of_lookup _ _ _ he
      rw [List.foldl_cons, hstep]
      exact ih (fun q hq => hne q (List.mem_cons_of_mem _ hq)) T
        (fun q hq => habs q (List.mem_cons_of_mem _ hq))

theorem topoAbsorbs_self (topo : List (String × TopoDevEntry))
    (htopo : NodupKeys topo)
    (hifs : ∀ p ∈ topo, NodupKeys p.2.interfaces) :
    TopoAbsorbs topo topo := by
  intro p hp
  refine ⟨p.2, lookupA_of_mem_nodup _ _ _ htopo (by obtain ⟨a, b⟩ := p; exact hp), ?_⟩
  intro q hq
  exact lookupA_of_mem_nodup _ _ _ (hifs p hp) (by obtain ⟨a, b⟩ := q; exact hq)

theorem foldl_cydStep_keys_mono (credential_dict : CredMap) :
    ∀ (devs : List TDevice) (acc : List (String × DocDevice)) (k : String),
      k ∈ keysOf acc → k ∈ keysOf (devs.foldl (cydStep credential_dict) acc) := by
  intro devs
  induction devs with
  | nil => intro acc k h; exact h
  | cons d ds ih =>
      intro acc k h
      rw [List.foldl_cons]
      apply ih
      unfold cydStep
      by_cases hm : d.name ∈ keysOf acc
      · rw [if_pos hm]; exact h
      · rw [if_neg hm]
        exact (mem_keys_setKey acc d.name k (mkDocDevice d credential_dict)).mpr (Or.inr h)

theorem foldl_cydStep_mem (credential_dict : CredMap) :
    ∀ (devs : List TDevice) (acc : List (String × DocDevice)) (d : TDevice),
      d ∈ devs → d.name ∈ keysOf (devs.foldl (cydStep credential_dict) acc) := by
  intro devs
  induction devs with
  | nil => intro acc d h; simp at h
  | cons d0 ds ih =>
      intro acc d h
      rw [List.foldl_cons]
      rcases List.mem_cons.mp h with rfl | h
      · apply foldl_cydStep_keys_mono
        unfold cydStep
        by_cases hm : d.name ∈ keysOf acc
        · rw [if_pos hm]; exact hm
        · rw [if_neg hm]
          exact (mem_keys_setKey acc d.name d.name (mkDocDevice d credential_dict)).mpr
            (Or.inl rfl)
      · exact ih _ d h

theorem foldl_cydStep_lookup_keep (credential_dict : CredMap) :
    ∀ (devs : List TDevice) (acc : List (String × DocDevice)) (k : String) (v : DocDevice),
      lookupA acc k = some v →
        lookupA (devs.foldl (cydStep credential_dict) acc) k = some v := by
  intro devs
  induction devs with
  | nil => intro acc k v h; exact h
  | cons d ds ih =>
      intro acc k v h
      rw [List.foldl_cons]
      apply ih
      unfold cydStep
      by_cases hm : d.name ∈ keysOf acc
      · rw [if_pos hm]; exact h
      · rw [if_neg hm]
        have hk : k ≠ d.name := by
          intro he
          exact hm (he ▸ mem_keys_of_lookupA acc k v h)
        rw [lookupA_setKey_ne _ _ _ _ hk]
        exact h

theorem foldl_cydStep_id (credential_dict : CredMap) :
    ∀ (devs : List TDevice) (acc : List (String × DocDevice)),
      (∀ d ∈ devs, d.name ∈ keysOf acc) →
        devs.foldl (cydStep credential_dict) acc = acc := by
  intro devs
  induction devs with
  | nil => intro acc _; rfl
  | cons d ds ih =>
      intro acc h
      rw [List.foldl_cons]
      have hstep : cydStep credential_dict acc d = acc := by
        unfold cydStep
        rw [if_pos (h d (List.mem_cons_self _ _))]
      rw [hstep]
      exact ih acc (fun d' hd' => h d' (List.mem_cons_of_mem _ hd'))

theorem mergeTopo_keeps (topo : List (String × TopoDevEntry)) :
    ∀ (T : List (String × TopoDevEntry)) (dn : String) (e : TopoDevEntry),
      lookupA T dn = some e →
        ∃ e', lookupA (topo.foldl mergeTopoEntry T) dn = some e' ∧
          ∀ k, (lookupA e.interfaces k).isSome → (lookupA e'.interfaces k).isSome := by
  induction topo with
  | nil => exact fun T dn e h => ⟨e, h, fun k hk => hk⟩
  | cons p rest ih =>
      intro T dn e h
      rw [List.foldl_cons]
      by_cases hdn : dn = p.1
      · subst hdn
        have hmerge : mergeTopoEntry T p = setKey T p.1 ⟨updateAll e.interfaces p.2.interfaces⟩ ∨
            mergeTopoEntry T p = T := by
          unfold mergeTopoEntry
          rw [h]
          dsimp only
          by_cases hne : p.2.interfaces ≠ []
          · rw [if_pos hne]
            exact Or.inl rfl
          · rw [if_neg hne]
            exact Or.inr rfl
        rcases hmerge with hm | hm
        · have hlook : lookupA (mergeTopoEntry T p) p.1 =
              some ⟨updateAll e.interfaces p.2.interfaces⟩ := by
            rw [hm, lookupA_setKey_self]
          obtain ⟨e', h1, h2⟩ := ih (mergeTopoEntry T p) p.1 _ hlook
          refine ⟨e', h1, ?_⟩
          intro k hk
          exact h2 k (isSome_lookupA_updateAll p.2.interfaces e.interfaces k hk)
        · obtain ⟨e', h1, h2⟩ := ih (mergeTopoEntry T p) p.1 e (by rw [hm]; exact h)
          exact ⟨e', h1, h2⟩
      · obtain ⟨e', h1, h2⟩ := ih (mergeTopoEntry T p) dn e
          (by rw [lookupA_mergeTopoEntry_ne T p dn hdn]; exact h)
        exact ⟨e', h1, h2⟩

theorem create_yaml_dict_none_eq (tb : Testbed) (doc : Doc) (cred : CredMap)
    (h : doc.topology = none) :
    create_yaml_dict tb doc cred =
      { devices := cydDevices tb doc.devices cred, topology := some (cydTopo tb) } := by
  unfold create_yaml_dict
  rw [h]

theorem create_yaml_dict_some_eq (tb : Testbed) (doc : Doc) (cred : CredMap)
    (T : List (String × TopoDevEntry)) (h : doc.topology = some T) :
    create_yaml_dict tb doc cred =
      { devices := cydDevices tb doc.devices cred,
        topology := some ((cydTopo tb).foldl mergeTopoEntry T) } := by
  unfold create_yaml_dict
  rw [h]

/-! ## Claim C8: `create_yaml_dict` is additive and a fixed point -/

/-- C8: re-running `create_yaml_dict` on its own output for the same
final testbed (an empty discovery result — nothing in the graph beyond
what the document already reflects) leaves the document unchanged, both
its `devices` and its `topology` section; moreover the projection is
additive: every device entry of the input document survives verbatim
and every interface entry of the input topology is still present
(possibly updated) in the output. -/
theorem C8_create_yaml_dict_fixed_point (tb : Testbed) (doc : Doc) (cred : CredMap) :
    create_yaml_dict tb (create_yaml_dict tb doc cred) cred =
      create_yaml_dict tb doc cred ∧
    (∀ (k : String) (v : DocDevice), lookupA doc.devices k = some v →
      lookupA (create_yaml_dict tb doc cred).devices k = some v) ∧
    (∀ (T : List (String × TopoDevEntry)), doc.topology = some T →
      ∀ (dn : String) (e : TopoDevEntry), lookupA T dn = some e →
        ∃ T1 e', (create_yaml_dict tb doc cred).topology = some T1 ∧
          lookupA T1 dn = some e' ∧
          ∀ k, (lookupA e.interfaces k).isSome →
            (lookupA e'.interfaces k).isSome) := by
  obtain ⟨htopo, hent⟩ := cydTopo_entries tb
  have hifs : ∀ p ∈ cydTopo tb, NodupKeys p.2.interfaces := fun p hp => (hent p hp).2
  have hne : ∀ p ∈ cydTopo tb, p.2.interfaces ≠ [] := fun p hp => (hent p hp).1
  have hdevmem : ∀ d ∈ tb.devices,
      d.name ∈ keysOf (cydDevices tb doc.devices cred) :=
    fun d hd => foldl_cydStep_mem cred tb.devices doc.devices d hd
  refine ⟨?_, ?_, ?_⟩
  · -- the fixed point
    cases hdt : doc.topology with
    | none =>
        rw [create_yaml_dict_none_eq tb doc cred hdt]
        have habs : TopoAbsorbs (cydTopo tb) (cydTopo tb) :=
          topoAbsorbs_self (cydTopo tb) htopo hifs
        rw [create_yaml_dict_some_eq tb _ cred (cydTopo tb) rfl]
        rw [mergeTopo_id (cydTopo tb) hne (cydTopo tb) habs]
        have : cydDevices tb (cydDevices tb doc.devices cred) cred =
            cydDevices tb doc.devices cred :=
          foldl_cydStep_id cred tb.devices _ hdevmem
        rw [this]
    | some T =>
        rw [create_yaml_dict_some_eq tb doc cred T hdt]
        have habs : TopoAbsorbs ((cydTopo tb).foldl mergeTopoEntry T) (cydTopo tb) :=
          mergeTopo_absorbs (cydTopo tb) htopo hifs T
        rw [create_yaml_dict_some_eq tb _ cred ((cydTopo tb).foldl mergeTopoEntry T) rfl]
        rw [mergeTopo_id (cydTopo tb) hne _ habs]
        have : cydDevices tb (cydDevices tb doc.devices cred) cred =
            cydDevices tb doc.devices cred :=
          foldl_cydStep_id cred tb.devices _ hdevmem
        rw [this]
  · -- device entries survive
    intro k v h
    cases hdt : doc.topology with
    | none =>
        rw [create_yaml_dict_none_eq tb doc cred hdt]
        exact foldl_cydStep_lookup_keep cred tb.devices doc.devices k v h
    | some T =>
        rw [create_yaml_dict_some_eq tb doc cred T hdt]
        exact foldl_cydStep_lookup_keep cred tb.devices doc.devices k v h
  · -- topology interface entries survive
    intro T hdt dn e he
    obtain ⟨e', h1, h2⟩ := mergeTopo_keeps (cydTopo tb) T dn e he
    refine ⟨(cydTopo tb).foldl mergeTopoEntry T, e', ?_, h1, h2⟩
    rw [create_yaml_dict_some_eq tb doc cred T hdt]

/-! ## Claim C5: exclusion filtering through the pipeline -/

theorem mem_of_lookupA {α : Type} (l : List (String × α)) (k : String) (v : α)
    (h : lookupA l k = some v) : (k, v) ∈ l := by
  induction l with
  | nil => simp at h
  | cons p rest ih =>
      obtain ⟨k1, v1⟩ := p
      by_cases hp : k1 = k
      · subst hp
        simp at h
        rw [← h]
        exact List.mem_cons_self _ _
      · simp only [lookupA_cons, if_neg hp] at h
        exact List.mem_cons_of_mem _ (ih h)

/-- The connection dictionary never mentions interface `n`, neither as a
local interface key nor as a destination port. -/
def ConnsAvoid (n : String) (dc : DeviceConns) : Prop :=
  ∀ p ∈ dc, p.1 ≠ n ∧ ∀ e ∈ p.2, e.dest_port ≠ n

theorem connsAvoid_nil (n : String) : ConnsAvoid n [] := by
  intro p hp
  simp at hp

theorem add_to_device_connections_avoid (n : String) (dc : DeviceConns)
    (h p i d : String) (hi : i ≠ n) (hp : p ≠ n) (hdc : ConnsAvoid n dc) :
    ConnsAvoid n (add_to_device_connections dc h p i d) := by
  unfold add_to_device_connections
  cases hl : lookupA dc i with
  | none =>
      dsimp only
      intro q hq
      obtain ⟨qk, qv⟩ := q
      rcases mem_setKey_cases _ _ _ _ _ hq with ⟨rfl, rfl⟩ | hmem
      · refine ⟨hi, ?_⟩
        intro e he
        simp only [List.mem_singleton] at he
        subst he
        exact hp
      · exact hdc _ hmem
  | some entries =>
      dsimp only
      by_cases hm : (⟨h, p⟩ : ConnEndpoint) ∈ entries
      · rw [if_pos hm]
        exact hdc
      · rw [if_neg hm]
        intro q hq
        obtain ⟨qk, qv⟩ := q
        rcases mem_setKey_cases _ _ _ _ _ hq with ⟨hqk, hqv⟩ | hmem
        · refine ⟨?_, ?_⟩
          · rw [hqk]; exact hi
          · intro e he
            rw [hqv] at he
            rcases List.mem_append.mp he with he | he
            · exact (hdc _ (mem_of_lookupA dc i entries hl)).2 e he
            · simp only [List.mem_singleton] at he
              subst he
              exact hp
        · exact hdc _ hmem

theorem processCdpEntry_avoid (n : String) (cfg : TopoConfig) (tbNames : List String)
    (device_name : String) (st : ProcState) (conn : CdpConn)
    (hex : pyInStr n cfg.exclude_interfaces = true)
    (hst : ConnsAvoid n st.device_connections) :
    ConnsAvoid n (processCdpEntry cfg tbNames device_name st conn).device_connections := by
  unfold processCdpEntry
  dsimp only
  by_cases h1 : cfg.only_links = true ∧
      ((domainFilterHostname
        (match conn.system_name with
         | some s => if s.isEmpty then conn.device_id else s
         | none => conn.device_id)).getD
        (match conn.system_name with
         | some s => if s.isEmpty then conn.device_id else s
         | none => conn.device_id)) ∉ tbNames
  · rw [if_pos h1]
    exact hst
  · rw [if_neg h1]
    by_cases h2 : pyInStr conn.local_interface cfg.exclude_interfaces = true
    · rw [if_pos h2]
      exact hst
    · rw [if_neg h2]
      by_cases h3 : pyInStr conn.port_id cfg.exclude_interfaces = true
      · rw [if_pos h3]
        exact hst
      · rw [if_neg h3]
        have hi : conn.local_interface ≠ n := by
          intro he
          rw [he, hex] at h2
          exact h2 rfl
        have hp : conn.port_id ≠ n := by
          intro he
          rw [he, hex] at h3
          exact h3 rfl
        by_cases h4 : ((pySetOf conn.interface_addresses).any (fun ip =>
            cfg.exclude_networks.any (fun net =>
              validIPAddress (.pstr ip) && ipInNet ip net)) ||
          (pySetOf conn.management_addresses).any (fun ip =>
            cfg.exclude_networks.any (fun net =>
              validIPAddress (.pstr ip) && ipInNet ip net))) = true
        · rw [if_pos h4]
          exact hst
        · rw [if_neg h4]
          dsimp only
          exact add_to_device_connections_avoid n st.device_connections _ _ _ _ hi hp hst

theorem process_cdp_information_avoid (n : String) (cfg : TopoConfig)
    (tbNames : List String) (device_name : String) (result : CdpResult)
    (hex : pyInStr n cfg.exclude_interfaces = true) :
    ∀ (st : ProcState), ConnsAvoid n st.device_connections →
      ConnsAvoid n
        (_process_cdp_information cfg tbNames device_name result st).device_connections := by
  unfold _process_cdp_information
  induction result.index with
  | nil => intro st h; exact h
  | cons c rest ih =>
      intro st h
      rw [List.foldl_cons]
      exact ih _ (processCdpEntry_avoid n cfg tbNames device_name st c hex h)

theorem processLldpPort_avoid (n : String) (cfg : TopoConfig) (tbNames : List String)
    (device_name interfaceName : String) (acc : ProcState × Option String)
    (port : LldpPort) (hex : pyInStr n cfg.exclude_interfaces = true)
    (hst : ConnsAvoid n acc.1.device_connections) :
    ConnsAvoid n
      (processLldpPort cfg tbNames device_name interfaceName acc port).1.device_connections := by
  unfold processLldpPort
  cases hh : port.neighbors.head? with
  | none => exact hst
  | some nb =>
      dsimp only
      cases hd : (domainFilterHostname nb.name).orElse (fun _ => acc.2) with
      | none => exact hst
      | some dest_host =>
          dsimp only
          by_cases h1 : cfg.only_links = true ∧ dest_host ∉ tbNames
          · rw [if_pos h1]
            exact hst
          · rw [if_neg h1]
            by_cases h2 : pyInStr interfaceName cfg.exclude_interfaces = true
            · rw [if_pos h2]
              exact hst
            · rw [if_neg h2]
              by_cases h3 : pyInStr port.dest_port cfg.exclude_interfaces = true
              · rw [if_pos h3]
                exact hst
              · rw [if_neg h3]
                have hi : interfaceName ≠ n := by
                  intro he
                  rw [he, hex] at h2
                  exact h2 rfl
                have hp : port.dest_port ≠ n := by
                  intro he
                  rw [he, hex] at h3
                  exact h3 rfl
                by_cases h4 : (match nb.management_address.orElse
                    (fun _ => nb.management_address_v4) with
                  | some ipa =>
                      decide (cfg.exclude_networks ≠ []) &&
                        cfg.exclude_networks.any (fun net =>
                          validIPAddress (.pstr ipa) && ipInNet ipa net)
                  | none => false) = true
                · rw [if_pos h4]
                  exact hst
                · rw [if_neg h4]
                  dsimp only
                  exact add_to_device_connections_avoid n acc.1.device_connections
                    _ _ _ _ hi hp hst

theorem process_lldp_information_avoid (n : String) (cfg : TopoConfig)
    (tbNames : List String) (device_name : String) (result : LldpResult)
    (hex : pyInStr n cfg.exclude_interfaces = true)
    (st : ProcState) (hst : ConnsAvoid n st.device_connections) :
    ConnsAvoid n
      (_process_lldp_information cfg tbNames device_name result st).device_connections := by
  unfold _process_lldp_information
  have main : ∀ (ifs : List LldpIf) (acc : ProcState × Option String),
      ConnsAvoid n acc.1.device_connections →
      ConnsAvoid n ((ifs.foldl (fun acc li =>
        li.port_id.foldl (processLldpPort cfg tbNames device_name li.name) acc)
        acc).1.device_connections) := by
    intro ifs
    induction ifs with
    | nil => intro acc h; exact h
    | cons li rest ih =>
        intro acc h
        rw [List.foldl_cons]
        apply ih
        have inner : ∀ (ports : List LldpPort) (acc2 : ProcState × Option String),
            ConnsAvoid n acc2.1.device_connections →
            ConnsAvoid n ((ports.foldl
              (processLldpPort cfg tbNames device_name li.name) acc2).1.device_connections) := by
          intro ports
          induction ports with
          | nil => intro acc2 h2; exact h2
          | cons pt rest2 ih2 =>
              intro acc2 h2
              rw [List.foldl_cons]
              exact ih2 _ (processLldpPort_avoid n cfg tbNames device_name li.name
                acc2 pt hex h2)
        exact inner li.port_id acc h
  exact main result.interfaces (st, none) hst

theorem get_device_connections_avoid (n : String) (cfg : TopoConfig)
    (tbNames : List String) (data : RawDeviceResult) (device_list : DeviceList)
    (hex : pyInStr n cfg.exclude_interfaces = true) :
    ConnsAvoid n (get_device_connections cfg tbNames data device_list).device_connections := by
  unfold get_device_connections
  have hbase : ConnsAvoid n (ProcState.mk device_list []).device_connections :=
    connsAvoid_nil n
  cases data.cdp with
  | emptyDict =>
      cases data.lldp with
      | emptyDict => exact hbase
      | pyNone => exact hbase
      | val r =>
          dsimp only
          by_cases ht : r.total_entries ≠ 0
          · rw [if_pos ht]
            exact process_lldp_information_avoid n cfg tbNames data.name r hex _ hbase
          · rw [if_neg ht]
            exact hbase
  | pyNone =>
      cases data.lldp with
      | emptyDict => exact hbase
      | pyNone => exact hbase
      | val r =>
          dsimp only
          by_cases ht : r.total_entries ≠ 0
          · rw [if_pos ht]
            exact process_lldp_information_avoid n cfg tbNames data.name r hex _ hbase
          · rw [if_neg ht]
            exact hbase
  | val rc =>
      have hcdp : ConnsAvoid n
          (_process_cdp_information cfg tbNames data.name rc
            (ProcState.mk device_list [])).device_connections :=
        process_cdp_information_avoid n cfg tbNames data.name rc hex _ hbase
      cases data.lldp with
      | emptyDict => exact hcdp
      | pyNone => exact hcdp
      | val r =>
          dsimp only
          by_cases ht : r.total_entries ≠ 0
          · rw [if_pos ht]
            exact process_lldp_information_avoid n cfg tbNames data.name r hex _ hcdp
          · rw [if_neg ht]
            exact hcdp

theorem process_neighbor_data_avoid (n : String) (cfg : TopoConfig)
    (tbNames : List String) (hex : pyInStr n cfg.exclude_interfaces = true) :
    ∀ (result : List RawDeviceResult) (acc : List (String × DeviceConns) × DeviceList),
      (∀ p ∈ acc.1, ConnsAvoid n p.2) →
      ∀ p ∈ (result.foldl (fun acc entry =>
          (setKey acc.1 entry.name
            (get_device_connections cfg tbNames entry acc.2).device_connections,
           (get_device_connections cfg tbNames entry acc.2).device_list)) acc).1,
        ConnsAvoid n p.2 := by
  intro result
  induction result with
  | nil => intro acc h; exact h
  | cons entry rest ih =>
      intro acc h
      rw [List.foldl_cons]
      apply ih
      intro p hp
      obtain ⟨pk, pv⟩ := p
      rcases mem_setKey_cases _ _ _ _ _ hp with ⟨rfl, rfl⟩ | hmem
      · exact get_device_connections_avoid n cfg tbNames entry acc.2 hex
      · exact h _ hmem

/-- The exclusion invariant on the testbed graph: no interface named `n`
belongs to a link, and no link endpoint mentions interface name `n`. -/
def NoLinkOn (n : String) (tb : Testbed) : Prop :=
  (∀ d ∈ tb.devices, ∀ i ∈ d.interfaces, i.name = n → i.link = none) ∧
  (∀ L ∈ tb.links, ∀ ep ∈ L.endpoints, ep.2 ≠ n)

theorem updateDevice_addIface_preserves (n : String) (tb : Testbed)
    (devName iName : String) (h : NoLinkOn n tb) :
    NoLinkOn n (updateDevice tb devName (fun d => addIfaceIfMissing d iName)) := by
  obtain ⟨h1, h2⟩ := h
  refine ⟨?_, h2⟩
  intro d' hd' i hi hn
  unfold updateDevice at hd'
  simp only at hd'
  obtain ⟨d, hd, hde⟩ := List.mem_map.mp hd'
  by_cases hname : d.name = devName
  · rw [if_pos hname] at hde
    subst hde
    unfold addIfaceIfMissing at hi
    cases hf : findIface d iName with
    | some _ =>
        rw [hf] at hi
        exact h1 d hd i hi hn
    | none =>
        rw [hf] at hi
        simp only at hi
        rcases List.mem_append.mp hi with hi | hi
        · exact h1 d hd i hi hn
        · simp only [List.mem_singleton] at hi
          subst hi
          rfl
  · rw [if_neg hname] at hde
    subst hde
    exact h1 d hd i hi hn

theorem addMissingIfaces_preserves (n devName : String) (ifaces : List String) :
    ∀ (tb : Testbed), NoLinkOn n tb →
      NoLinkOn n (addMissingIfaces devName ifaces tb) := by
  unfold addMissingIfaces
  induction ifaces with
  | nil => intro tb h; exact h
  | cons i rest ih =>
      intro tb h
      rw [List.foldl_cons]
      exact ih _ (updateDevice_addIface_preserves n tb devName i h)

theorem setIfaceLink_preserves (n : String) (tb : Testbed)
    (dev iName lname : String) (hi : iName ≠ n) (h : NoLinkOn n tb) :
    NoLinkOn n (setIfaceLink tb dev iName lname) := by
  obtain ⟨h1, h2⟩ := h
  refine ⟨?_, h2⟩
  intro d' hd' i hi' hn
  unfold setIfaceLink updateDevice at hd'
  simp only at hd'
  obtain ⟨d, hd, hde⟩ := List.mem_map.mp hd'
  by_cases hname : d.name = dev
  · rw [if_pos hname] at hde
    subst hde
    simp only at hi'
    obtain ⟨i0, hi0, hie⟩ := List.mem_map.mp hi'
    by_cases hni : i0.name = iName
    · rw [if_pos hni] at hie
      subst hie
      simp only at hn
      exact absurd (hn ▸ hni.symm) (by simpa using hi)
    · rw [if_neg hni] at hie
      subst hie
      exact h1 d hd i0 hi0 hn
  · rw [if_neg hname] at hde
    subst hde
    exact h1 d hd i hi' hn

theorem addLinkEndpoint_preserves (n : String) (tb : Testbed)
    (lname : String) (ep : String × String) (hep : ep.2 ≠ n) (h : NoLinkOn n tb) :
    NoLinkOn n (addLinkEndpoint tb lname ep) := by
  obtain ⟨h1, h2⟩ := h
  refine ⟨h1, ?_⟩
  intro L' hL' q hq
  unfold addLinkEndpoint at hL'
  simp only at hL'
  obtain ⟨L, hL, hLe⟩ := List.mem_map.mp hL'
  by_cases hn : L.name = lname
  · rw [if_pos hn] at hLe
    subst hLe
    simp only at hq
    rcases List.mem_append.mp hq with hq | hq
    · exact h2 L hL q hq
    · simp only [List.mem_singleton] at hq
      subst hq
      exact hep
  · rw [if_neg hn] at hLe
    subst hLe
    exact h2 L hL q hq

theorem foldl_setIfaceLink_preserves (n lname : String)
    (int_list : List (String × String)) (hl : ∀ ep ∈ int_list, ep.2 ≠ n) :
    ∀ (tb : Testbed), NoLinkOn n tb →
      NoLinkOn n (int_list.foldl (fun tb ep => setIfaceLink tb ep.1 ep.2 lname) tb) := by
  induction int_list with
  | nil => intro tb h; exact h
  | cons ep rest ih =>
      intro tb h
      rw [List.foldl_cons]
      exact ih (fun q hq => hl q (List.mem_cons_of_mem _ hq)) _
        (setIfaceLink_preserves n tb ep.1 ep.2 lname
          (hl ep (List.mem_cons_self _ _)) h)

theorem foldl_setIfaceLink_links (lname : String)
    (int_list : List (String × String)) :
    ∀ (tb : Testbed),
      (int_list.foldl (fun tb ep => setIfaceLink tb ep.1 ep.2 lname) tb).links =
        tb.links := by
  induction int_list with
  | nil => intro tb; rfl
  | cons ep rest ih =>
      intro tb
      rw [List.foldl_cons, ih]
      rfl

theorem makeNewLink_preserves (n : String) (tb : Testbed)
    (int_list : List (String × String)) (hl : ∀ ep ∈ int_list, ep.2 ≠ n)
    (h : NoLinkOn n tb) : NoLinkOn n (makeNewLink tb int_list) := by
  unfold makeNewLink
  by_cases hlen : int_list.length > 1
  · rw [if_pos hlen]
    dsimp only
    have hfold := foldl_setIfaceLink_preserves n
      ("Link_" ++ toString tb.links.length) int_list hl tb h
    obtain ⟨f1, f2⟩ := hfold
    refine ⟨f1, ?_⟩
    intro L hL q hq
    rcases List.mem_append.mp hL with hL | hL
    · exact f2 L hL q hq
    · simp only [List.mem_singleton] at hL
      subst hL
      exact hl q hq
  · rw [if_neg hlen]
    exact h

theorem gatherIntList_mem (tb : Testbed) (entries : List ConnEndpoint) :
    ∀ (init : List (String × String)) (ep : String × String),
      ep ∈ gatherIntList tb entries init →
        ep ∈ init ∨ ∃ e, e ∈ entries ∧ ep = (e.dest_host, e.dest_port) := by
  unfold gatherIntList
  induction entries with
  | nil => intro init ep h; exact Or.inl h
  | cons e rest ih =>
      intro init ep h
      rw [List.foldl_cons] at h
      rcases ih _ ep h with h1 | ⟨e', he', hpe⟩
      · cases hf : findDeviceIface tb e.dest_host e.dest_port with
        | none =>
            rw [hf] at h1
            exact Or.inl h1
        | some _ =>
            rw [hf] at h1
            by_cases hm : (e.dest_host, e.dest_port) ∈ init
            · rw [if_pos hm] at h1
              exact Or.inl h1
            · rw [if_neg hm] at h1
              rcases List.mem_append.mp h1 with h2 | h2
              · exact Or.inl h2
              · simp only [List.mem_singleton] at h2
                exact Or.inr ⟨e, List.mem_cons_self _ _, h2⟩
      · exact Or.inr ⟨e', List.mem_cons_of_mem _ he', hpe⟩

theorem extendLink_preserves (n lname : String) (tb : Testbed) (e : ConnEndpoint)
    (he : e.dest_port ≠ n) (h : NoLinkOn n tb) :
    NoLinkOn n (extendLink lname tb e) := by
  unfold extendLink
  cases hf : findLink tb lname with
  | none => exact h
  | some L =>
      dsimp only
      by_cases hm : (e.dest_host, e.dest_port) ∈ L.endpoints
      · rw [if_pos hm]
        exact h
      · rw [if_neg hm]
        cases hfi : findDeviceIface tb e.dest_host e.dest_port with
        | none => exact h
        | some _ =>
            exact setIfaceLink_preserves n _ e.dest_host e.dest_port lname he
              (addLinkEndpoint_preserves n tb lname (e.dest_host, e.dest_port) he h)

theorem foldl_extendLink_preserves (n lname : String) (entries : List ConnEndpoint)
    (hent : ∀ e ∈ entries, e.dest_port ≠ n) :
    ∀ (tb : Testbed), NoLinkOn n tb →
      NoLinkOn n (entries.foldl (extendLink lname) tb) := by
  induction entries with
  | nil => intro tb h; exact h
  | cons e rest ih =>
      intro tb h
      rw [List.foldl_cons]
      exact ih (fun q hq => hent q (List.mem_cons_of_mem _ hq)) _
        (extendLink_preserves n lname tb e (hent e (List.mem_cons_self _ _)) h)

theorem writeConnIface_preserves (n devName ifaceName : String)
    (entries : List ConnEndpoint) (tb : Testbed)
    (hif : ifaceName ≠ n) (hent : ∀ e ∈ entries, e.dest_port ≠ n)
    (h : NoLinkOn n tb) : NoLinkOn n (writeConnIface devName ifaceName entries tb) := by
  unfold writeConnIface
  cases hf : findDevice tb devName with
  | none => exact h
  | some dev0 =>
      dsimp only
      cases hfi : findIface dev0 ifaceName with
      | none =>
          dsimp only
          have h2 := updateDevice_addIface_preserves n tb devName ifaceName h
          cases hdi : findDeviceIface
              (updateDevice tb devName (fun d => addIfaceIfMissing d ifaceName))
              devName ifaceName with
          | none => exact h2
          | some iface =>
              dsimp only
              cases hlk : iface.link with
              | none =>
                  apply makeNewLink_preserves n _ _ ?_ h2
                  intro ep hep
                  rcases gatherIntList_mem _ entries _ ep hep with h3 | ⟨e, he, hpe⟩
                  · simp only [List.mem_singleton] at h3
                    subst h3
                    exact hif
                  · subst hpe
                    exact hent e he
              | some lname =>
                  exact foldl_extendLink_preserves n lname entries hent _ h2
      | some _ =>
          dsimp only
          cases hdi : findDeviceIface tb devName ifaceName with
          | none => exact h
          | some iface =>
              dsimp only
              cases hlk : iface.link with
              | none =>
                  apply makeNewLink_preserves n _ _ ?_ h
                  intro ep hep
                  rcases gatherIntList_mem _ entries _ ep hep with h3 | ⟨e, he, hpe⟩
                  · simp only [List.mem_singleton] at h3
                    subst h3
                    exact hif
                  · subst hpe
                    exact hent e he
              | some lname =>
                  exact foldl_extendLink_preserves n lname entries hent _ h

theorem write_connections_preserves (n : String)
    (connection_dict : List (String × DeviceConns))
    (hcd : ∀ p ∈ connection_dict, ConnsAvoid n p.2) :
    ∀ (tb : Testbed), NoLinkOn n tb →
      NoLinkOn n (_write_connections_to_testbed connection_dict tb) := by
  unfold _write_connections_to_testbed
  induction connection_dict with
  | nil => intro tb h; exact h
  | cons p rest ih =>
      intro tb h
      rw [List.foldl_cons]
      have hinner : ∀ (dc : DeviceConns), ConnsAvoid n dc →
          ∀ (tb : Testbed), NoLinkOn n tb →
            NoLinkOn n (dc.foldl (fun tb q => writeConnIface p.1 q.1 q.2 tb) tb) := by
        intro dc
        induction dc with
        | nil => intro _ tb h2; exact h2
        | cons q rest2 ih2 =>
            intro hdc tb h2
            rw [List.foldl_cons]
            have hq := hdc q (List.mem_cons_self _ _)
            exact ih2 (fun r hr => hdc r (List.mem_cons_of_mem _ hr)) _
              (writeConnIface_preserves n p.1 q.1 q.2 tb hq.1
                (fun e he => hq.2 e he) h2)
      exact ih (fun q hq => hcd q (List.mem_cons_of_mem _ hq)) _
        (hinner p.2 (hcd p (List.mem_cons_self _ _)) tb h)

theorem create_new_device_interfaces (cfg : TopoConfig) (tb : Testbed)
    (dd : DeviceData) (proxy_set : List String) (device_name : String) :
    (create_new_device cfg tb dd proxy_set device_name).interfaces =
      dd.ports.map (fun p => { name := p, typ := interfaceTypeName p }) := rfl

theorem writeDeviceStep_preserves (n : String) (cfg : TopoConfig)
    (showIfEnv : String → List String) (proxy_set : List String)
    (acc : Testbed × List String) (p : String × DeviceData)
    (h : NoLinkOn n acc.1) :
    NoLinkOn n (writeDeviceStep cfg showIfEnv proxy_set acc p).1 := by
  unfold writeDeviceStep
  cases hf : findDevice acc.1 p.1 with
  | none =>
      dsimp only
      obtain ⟨h1, h2⟩ := h
      refine ⟨?_, h2⟩
      intro d hd i hi hn
      rcases List.mem_append.mp hd with hd | hd
      · exact h1 d hd i hi hn
      · simp only [List.mem_singleton] at hd
        subst hd
        rw [create_new_device_interfaces] at hi
        obtain ⟨pp, _, hie⟩ := List.mem_map.mp hi
        rw [← hie]
  | some _ =>
      dsimp only
      by_cases hu : cfg.add_unconnected_interfaces
      · rw [if_pos hu]
        exact addMissingIfaces_preserves n p.1 (showIfEnv p.1) acc.1 h
      · rw [if_neg hu]
        exact addMissingIfaces_preserves n p.1 p.2.ports acc.1 h

theorem write_devices_preserves (n : String) (cfg : TopoConfig)
    (showIfEnv : String → List String) (proxy_set : List String)
    (credential_dict : CredMap) (device_list : DeviceList) :
    ∀ (tb : Testbed), NoLinkOn n tb →
      NoLinkOn n (_write_devices_into_testbed cfg showIfEnv device_list proxy_set
        credential_dict tb).1 := by
  unfold _write_devices_into_testbed
  have main : ∀ (dl : DeviceList) (acc : Testbed × List String),
      NoLinkOn n acc.1 →
      NoLinkOn n (dl.foldl (writeDeviceStep cfg showIfEnv proxy_set) acc).1 := by
    intro dl
    induction dl with
    | nil => intro acc h; exact h
    | cons p rest ih =>
        intro acc h
        rw [List.foldl_cons]
        exact ih _ (writeDeviceStep_preserves n cfg showIfEnv proxy_set acc p h)
  intro tb h
  exact main device_list (tb, []) h

theorem connectTransform_interfaces (supported : List String)
    (aliasDict : List (String × String)) (ssh_only : Bool)
    (oracle : String → String → Bool) (visited : List String) (d : TDevice) :
    (connectTransform supported aliasDict ssh_only oracle visited d).interfaces =
      d.interfaces := by
  unfold connectTransform
  by_cases h1 : d.connected = true ∨ d.name ∈ visited
  · rw [if_pos h1]
  · rw [if_neg h1]
    by_cases h2 : d.os ∉ supported
    · rw [if_pos h2]
    · rw [if_neg h2]
      by_cases h3 : _connect_one_device aliasDict ssh_only oracle d
      · rw [if_pos h3]
      · rw [if_neg h3]

theorem connect_phase_preserves (n : String) (supported : List String)
    (aliasDict : List (String × String)) (ssh_only : Bool)
    (oracle : String → String → Bool) (visited : List String) (tb : Testbed)
    (h : NoLinkOn n tb) :
    NoLinkOn n { tb with
      devices := (connect_all_devices supported aliasDict ssh_only oracle
        tb.devices visited).devices } := by
  obtain ⟨h1, h2⟩ := h
  refine ⟨?_, h2⟩
  intro d' hd' i hi hn
  rw [connect_all_devices_devices_eq] at hd'
  obtain ⟨d, hd, hde⟩ := List.mem_map.mp hd'
  subst hde
  rw [connectTransform_interfaces] at hi
  exact h1 d hd i hi hn

theorem topoRound_preserves (n : String) (cfg : TopoConfig) (supported : List String)
    (aliasDict : List (String × String)) (ssh_only : Bool)
    (proxy_set : List String) (credential_dict : CredMap)
    (showIfEnv : String → List String) (inp : RoundInput) (st : DiscoveryState)
    (hex : pyInStr n cfg.exclude_interfaces = true)
    (h : NoLinkOn n st.tb) :
    NoLinkOn n (topoRound cfg supported aliasDict ssh_only proxy_set credential_dict
      showIfEnv inp st).tb := by
  unfold topoRound
  dsimp only
  apply write_connections_preserves n _ ?_
  · apply write_devices_preserves
    exact connect_phase_preserves n supported aliasDict ssh_only inp.oracle
      st.visited st.tb h
  · exact process_neighbor_data_avoid n cfg _ hex inp.raw ([], st.device_list)
      (by intro p hp; simp at hp)

theorem runDiscovery_preserves (n : String) (cfg : TopoConfig) (supported : List String)
    (aliasDict : List (String × String)) (ssh_only : Bool)
    (proxy_set : List String) (credential_dict : CredMap)
    (showIfEnv : String → List String) (rounds : List RoundInput)
    (hex : pyInStr n cfg.exclude_interfaces = true) :
    ∀ (st : DiscoveryState), NoLinkOn n st.tb →
      NoLinkOn n (runDiscovery cfg supported aliasDict ssh_only proxy_set
        credential_dict showIfEnv rounds st).tb := by
  unfold runDiscovery
  induction rounds with
  | nil => intro st h; exact h
  | cons inp rest ih =>
      intro st h
      rw [List.foldl_cons]
      exact ih _ (topoRound_preserves n cfg supported aliasDict ssh_only proxy_set
        credential_dict showIfEnv inp st hex h)

theorem applyIpv4_preserves (n : String) (supported : List String)
    (ipEnv : String → String → Option String) (tb : Testbed)
    (h : NoLinkOn n tb) : NoLinkOn n (applyIpv4 supported ipEnv tb) := by
  obtain ⟨h1, h2⟩ := h
  refine ⟨?_, h2⟩
  intro d' hd' i hi hn
  unfold applyIpv4 at hd'
  simp only at hd'
  obtain ⟨d, hd, hde⟩ := List.mem_map.mp hd'
  by_cases hcond : d.connected = true ∧ d.os ∈ supported ∧ d.interfaces.length ≥ 1
  · rw [if_pos hcond] at hde
    subst hde
    simp only at hi
    obtain ⟨i0, hi0, hie⟩ := List.mem_map.mp hi
    have hname : i0.name = n := by
      cases hiv : i0.ipv4 with
      | some _ =>
          rw [hiv] at hie
          rw [← hie] at hn
          exact hn
      | none =>
          rw [hiv] at hie
          cases he : ipEnv d.name i0.name with
          | some ip =>
              rw [he] at hie
              rw [← hie] at hn
              exact hn
          | none =>
              rw [he] at hie
              rw [← hie] at hn
              exact hn
    have hlink := h1 d hd i0 hi0 hname
    cases hiv : i0.ipv4 with
    | some _ =>
        rw [hiv] at hie
        rw [← hie]
        exact hlink
    | none =>
        rw [hiv] at hie
        cases he : ipEnv d.name i0.name with
        | some ip =>
            rw [he] at hie
            rw [← hie]
            exact hlink
        | none =>
            rw [he] at hie
            rw [← hie]
            exact hlink
  · rw [if_neg hcond] at hde
    subst hde
    exact h1 d hd i hi hn

/-- The exclusion invariant on the yaml document: no interface entry
named `n` in the topology section carries a link. -/
def DocNoLinkOn (n : String) (doc : Doc) : Prop :=
  ∀ T, doc.topology = some T →
    ∀ p ∈ T, ∀ q ∈ p.2.interfaces, q.1 = n → q.2.link = none

/-- The per-entry form of the document invariant. -/
def EntNoLinkOn (n : String) (e : TopoDevEntry) : Prop :=
  ∀ q ∈ e.interfaces, q.1 = n → q.2.link = none

theorem mem_mkIfaceDict (d : TDevice) (k : String) (v : IfaceEntry)
    (h : (k, v) ∈ mkIfaceDict d) :
    ∃ i, i ∈ d.interfaces ∧ i.name = k ∧ v = ⟨i.typ, i.link, i.ipv4⟩ := by
  unfold mkIfaceDict at h
  have main : ∀ (ifs : List TInterface) (init : List (String × IfaceEntry)),
      (k, v) ∈ ifs.foldl (fun m i => setKey m i.name ⟨i.typ, i.link, i.ipv4⟩) init →
      (k, v) ∈ init ∨ ∃ i, i ∈ ifs ∧ i.name = k ∧ v = ⟨i.typ, i.link, i.ipv4⟩ := by
    intro ifs
    induction ifs with
    | nil => intro init hh; exact Or.inl hh
    | cons i rest ih =>
        intro init hh
        rw [List.foldl_cons] at hh
        rcases ih _ hh with h1 | ⟨i', hi', rest'⟩
        · rcases mem_setKey_cases _ _ _ _ _ h1 with ⟨hk, hv⟩ | h2
          · exact Or.inr ⟨i, List.mem_cons_self _ _, hk.symm, hv⟩
          · exact Or.inl h2
        · exact Or.inr ⟨i', List.mem_cons_of_mem _ hi', rest'⟩
  rcases main d.interfaces [] h with h1 | h1
  · simp at h1
  · exact h1

theorem mem_cydTopo (tb : Testbed) (p : String × TopoDevEntry)
    (h : p ∈ cydTopo tb) :
    ∃ d, d ∈ tb.devices ∧ p.1 = d.name ∧ p.2 = ⟨mkIfaceDict d⟩ := by
  unfold cydTopo at h
  have main : ∀ (devs : List TDevice) (init : List (String × TopoDevEntry)),
      p ∈ devs.foldl (fun acc d =>
        if mkIfaceDict d ≠ [] then setKey acc d.name ⟨mkIfaceDict d⟩ else acc) init →
      p ∈ init ∨ ∃ d, d ∈ devs ∧ p.1 = d.name ∧ p.2 = ⟨mkIfaceDict d⟩ := by
    intro devs
    induction devs with
    | nil => intro init hh; exact Or.inl hh
    | cons d rest ih =>
        intro init hh
        rw [List.foldl_cons] at hh
        rcases ih _ hh with h1 | ⟨d', hd', rest'⟩
        · by_cases hne : mkIfaceDict d ≠ []
          · rw [if_pos hne] at h1
            obtain ⟨pk, pv⟩ := p
            rcases mem_setKey_cases _ _ _ _ _ h1 with ⟨hk, hv⟩ | h2
            · exact Or.inr ⟨d, List.mem_cons_self _ _, hk, hv⟩
            · exact Or.inl h2
          · rw [if_neg hne] at h1
            exact Or.inl h1
        · exact Or.inr ⟨d', List.mem_cons_of_mem _ hd', rest'⟩
  rcases main tb.devices [] h with h1 | h1
  · simp at h1
  · exact h1

theorem cydTopo_entNoLink (n : String) (tb : Testbed) (h : NoLinkOn n tb) :
    ∀ p ∈ cydTopo tb, EntNoLinkOn n p.2 := by
  intro p hp q hq hqn
  obtain ⟨d, hd, _, hpe⟩ := mem_cydTopo tb p hp
  rw [hpe] at hq
  obtain ⟨qk, qv⟩ := q
  obtain ⟨i, hi, hiname, hie⟩ := mem_mkIfaceDict d qk qv hq
  have : i.link = none := h.1 d hd i hi (by rw [hiname]; exact hqn)
  rw [hie]
  simpa using this

theorem mem_updateAll {α : Type} (m : List (String × α)) :
    ∀ (l : List (String × α)) (p : String × α), p ∈ updateAll l m →
      p ∈ l ∨ p ∈ m := by
  induction m with
  | nil => intro l p h; exact Or.inl h
  | cons q m' ih =>
      intro l p h
      unfold updateAll at h
      rw [List.foldl_cons] at h
      have h2 := ih (setKey l q.1 q.2) p h
      rcases h2 with h2 | h2
      · obtain ⟨pk, pv⟩ := p
        rcases mem_setKey_cases _ _ _ _ _ h2 with ⟨hk, hv⟩ | h3
        · subst hk
          subst hv
          exact Or.inr (List.mem_cons_self _ _)
        · exact Or.inl h3
      · exact Or.inr (List.mem_cons_of_mem _ h2)

theorem merge_entNoLink (n : String) (topo : List (String × TopoDevEntry)) :
    ∀ (T : List (String × TopoDevEntry)),
      (∀ p ∈ T, EntNoLinkOn n p.2) → (∀ p ∈ topo, EntNoLinkOn n p.2) →
      ∀ p ∈ topo.foldl mergeTopoEntry T, EntNoLinkOn n p.2 := by
  induction topo with
  | nil => intro T hT _ p hp; exact hT p hp
  | cons p0 rest ih =>
      intro T hT htopo p hp
      rw [List.foldl_cons] at hp
      have hstep : ∀ q ∈ mergeTopoEntry T p0, EntNoLinkOn n q.2 := by
        intro q hq
        unfold mergeTopoEntry at hq
        cases hl : lookupA T p0.1 with
        | none =>
            rw [hl] at hq
            obtain ⟨qk, qv⟩ := q
            rcases mem_setKey_cases _ _ _ _ _ hq with ⟨_, hv⟩ | h2
            · subst hv
              exact htopo p0 (List.mem_cons_self _ _)
            · exact hT _ h2
        | some old =>
            rw [hl] at hq
            dsimp only at hq
            by_cases hne : p0.2.interfaces ≠ []
            · rw [if_pos hne] at hq
              obtain ⟨qk, qv⟩ := q
              rcases mem_setKey_cases _ _ _ _ _ hq with ⟨_, hv⟩ | h2
              · subst hv
                intro r hr hrn
                simp only at hr
                rcases mem_updateAll p0.2.interfaces old.interfaces r hr with h3 | h3
                · exact hT (p0.1, old) (mem_of_lookupA T p0.1 old hl) r h3 hrn
                · exact htopo p0 (List.mem_cons_self _ _) r h3 hrn
              · exact hT _ h2
            · rw [if_neg hne] at hq
              exact hT _ hq
      exact ih (mergeTopoEntry T p0) hstep
        (fun q hq => htopo q (List.mem_cons_of_mem _ hq)) p hp

theorem create_yaml_dict_doc_noLink (n : String) (tb : Testbed) (doc : Doc)
    (cred : CredMap) (htb : NoLinkOn n tb) (hdoc : DocNoLinkOn n doc) :
    DocNoLinkOn n (create_yaml_dict tb doc cred) := by
  cases hdt : doc.topology with
  | none =>
      rw [create_yaml_dict_none_eq tb doc cred hdt]
      intro T hT p hp q hq hqn
      simp only [Option.some_inj] at hT
      subst hT
      exact cydTopo_entNoLink n tb htb p hp q hq hqn
  | some T0 =>
      rw [create_yaml_dict_some_eq tb doc cred T0 hdt]
      intro T hT p hp q hq hqn
      simp only [Option.some_inj] at hT
      subst hT
      exact merge_entNoLink n (cydTopo tb) T0
        (fun p hp => fun q hq hqn => hdoc T0 hdt p hp q hq hqn)
        (cydTopo_entNoLink n tb htb) p hp q hq hqn

/-- C5: for every interface name `n` that appears in the configured
`exclude-interfaces` string, no discovery run of any length ever places
an interface named `n` into a link — neither as the local nor the remote
end — and the final yaml document produced from the run carries no link
field on any interface entry named `n`, provided the seed testbed and
seed document were free of such links. -/
theorem C5_exclusion_filters_absolute (cfg : TopoConfig) (supported : List String)
    (aliasDict : List (String × String)) (ssh_only : Bool)
    (proxy_set : List String) (credential_dict : CredMap)
    (showIfEnv : String → List String) (rounds : List RoundInput)
    (st : DiscoveryState) (seedDoc : Doc)
    (ipEnv : String → String → Option String) (n : String)
    (hex : pyInStr n cfg.exclude_interfaces = true)
    (hseed : NoLinkOn n st.tb) (hdoc : DocNoLinkOn n seedDoc) :
    NoLinkOn n (runDiscovery cfg supported aliasDict ssh_only proxy_set
      credential_dict showIfEnv rounds st).tb ∧
    DocNoLinkOn n (create_yaml_dict
      (applyIpv4 supported ipEnv
        (runDiscovery cfg supported aliasDict ssh_only proxy_set
          credential_dict showIfEnv rounds st).tb)
      seedDoc credential_dict) := by
  have hrun := runDiscovery_preserves n cfg supported aliasDict ssh_only proxy_set
    credential_dict showIfEnv rounds hex st hseed
  refine ⟨hrun, ?_⟩
  exact create_yaml_dict_doc_noLink n _ seedDoc credential_dict
    (applyIpv4_preserves n supported ipEnv _ hrun) hdoc

/-- Creator configuration for the C5 witness: excludes `Ethernet0/1`. -/
def cfgW5 : TopoConfig := { exclude_interfaces := "Ethernet0/1" }

/-- Connected seed device for the C5 witness. -/
def devW5 : TDevice := { name := "R1", os := "ios", connected := true }

/-- Seed discovery state for the C5 witness. -/
def stW5 : DiscoveryState :=
  { tb := { devices := [devW5], links := [] }, visited := [], device_list := [] }

/-- A cdp neighbor entry reported on the excluded local interface. -/
def cdpConnW5 : CdpConn :=
  { device_id := "R2", port_id := "Ethernet0/2", local_interface := "Ethernet0/1" }

/-- One round of raw neighbor data for the C5 witness. -/
def roundW5 : RoundInput :=
  { oracle := fun _ _ => true,
    raw := [{ name := "R1", cdp := .val ⟨[cdpConnW5]⟩, lldp := .emptyDict }] }

/-- Empty seed document for the C5 witness. -/
def seedDocW5 : Doc := { devices := [], topology := none }

/-- Witness for C5 at a concrete run whose only neighbor entry uses the
excluded local interface: the final testbed still has no link touching
`Ethernet0/1`. -/
theorem C5_witness :
    NoLinkOn "Ethernet0/1"
      (runDiscovery cfgW5 SUPPORTED_OS [] false [] [] (fun _ => [])
        [roundW5] stW5).tb := by
  have h := (C5_exclusion_filters_absolute cfgW5 SUPPORTED_OS [] false [] []
    (fun _ => []) [roundW5] stW5 seedDocW5 (fun _ _ => none) "Ethernet0/1"
    (by decide) (by unfold NoLinkOn; decide)
    (by intro T hT; exact Option.noConfusion hT)).1
  exact h

/-- Witness for C4 at a concrete empty map: recording the same tuple
twice yields exactly the single-entry list. -/
theorem C4_witness :
    lookupA (add_to_device_connections
      (add_to_device_connections [] "R2" "Eth0/2" "Eth0/1" "R1")
      "R2" "Eth0/2" "Eth0/1" "R1") "Eth0/1" =
      some [⟨"R2", "Eth0/2"⟩] := by
  exact (C4_add_to_device_connections_idempotent [] "R2" "Eth0/2" "Eth0/1"
    "R1" "R1").2.2 rfl

/-- Concrete device for the C8 witness. -/
def devC8 : TDevice :=
  { name := "R1", os := "ios", interfaces := [{ name := "Eth1", typ := "eth" }] }

/-- Concrete testbed for the C8 witness. -/
def tbC8 : Testbed := { devices := [devC8], links := [] }

/-- Concrete pre-existing document device entry for the C8 witness. -/
def entC8 : DocDevice :=
  { dtype := "device", os := "ios", credentials := [], connections := [],
    generatedCustom := false }

/-- Concrete seed document for the C8 witness. -/
def docC8 : Doc :=
  { devices := [("R0", entC8)],
    topology := some [("R0", ⟨[("Gi0", { typ := "gi" })]⟩)] }

/-- Witness for C8 at a concrete document: re-projection is the
identity, the pre-existing device entry survives, and the pre-existing
topology interface entry is still present. -/
theorem C8_witness :
    create_yaml_dict tbC8 (create_yaml_dict tbC8 docC8 []) [] =
      create_yaml_dict tbC8 docC8 [] ∧
    lookupA (create_yaml_dict tbC8 docC8 []).devices "R0" = some entC8 ∧
    ∃ T1 e', (create_yaml_dict tbC8 docC8 []).topology = some T1 ∧
      lookupA T1 "R0" = some e' ∧
      ∀ k, (lookupA ([("Gi0", ({ typ := "gi" } : IfaceEntry))]) k).isSome →
        (lookupA e'.interfaces k).isSome := by
  have h := C8_create_yaml_dict_fixed_point tbC8 docC8 []
  refine ⟨h.1, h.2.1 "R0" _ (by decide), ?_⟩
  exact h.2.2 [("R0", ⟨[("Gi0", { typ := "gi" })]⟩)] (by decide) "R0"
    ⟨[("Gi0", { typ := "gi" })]⟩ (by decide)
